import Mathlib

/-!
# skygen: extraction of mapped structs (package `gen`)

A shallow embedding of `gen/gen.go`, `gen/struct.go` and `gen/field.go`.

Go strings are Lean strings; operations on them work on the list of characters.
A Go call has one of three outcomes: it returns a value with a nil error, it
returns an error, or it panics.

The standard-library pieces the code calls are modelled next to the code
(`strings.Split`, `strings.HasPrefix`, `strings.Join`, `reflect.StructTag.Get`,
`token.IsExported`, the compiled `commentRegexp`).  Three parts of the library
are data tables or decoders too large to restate; they are collected in
`GoLib` and every function that reaches them takes it as a parameter.
-/

namespace Skygen

/-! ## Standard library -/

/-- The `ast.Expr` shapes `fileGoType` tells apart; `other` is every other shape
(map, channel, function, interface, anonymous struct, ellipsis, ...). -/
inductive Expr where
  | StarExpr (X : Expr)
  | SelectorExpr (X : Expr) (Sel : String)
  | Ident (Name : String)
  | ArrayType (Len : Expr) (Elt : Expr)
  | BasicLit (Value : String)
  | nil
  | other
  deriving DecidableEq, Repr

/-- Parts of the Go standard library taken as parameters. -/
structure GoLib where
  /-- The result of `strconv.Unquote` on a double-quoted string that contains a backslash. -/
  unquoteEscaped : List Char → Option (List Char)
  /-- The value of `unicode.IsUpper` on runes above Latin-1 (the `unicode.Upper` table). -/
  upperTable : Char → Bool
  /-- The text `fmt` prints for an `ast.Expr` under the verb `%s`. -/
  fmtExpr : Expr → String

/-- Go `strings.Split(s, sep)` for a separator of one character. -/
def Split (sep : Char) : List Char → List (List Char)
  | [] => [[]]
  | c :: cs =>
    if c = sep then [] :: Split sep cs
    else
      match Split sep cs with
      | [] => [[c]]
      | p :: ps => (c :: p) :: ps

/-- Go `strings.HasPrefix(s, p)`. -/
def HasPrefix (s p : String) : Bool :=
  p.data.isPrefixOf s.data

/-- Go `strings.Join(v, sep)`. -/
def Join (sep : String) : List String → String
  | [] => ""
  | [a] => a
  | a :: b :: rest => a ++ sep ++ Join sep (b :: rest)

/-! ## gen/field.go, gen/struct.go -/

/-- The `Field` struct of field.go. -/
structure Field where
  Name : String
  Typ : String
  Column : String
  IsPK : Bool
  deriving DecidableEq, Repr

/-- The `Struct` struct of struct.go. -/
structure Struct where
  Typ : String
  StoreName : String
  Fields : List Field
  PkIndex : Int
  deriving DecidableEq, Repr

/-! ## gen/gen.go: parseFieldTag -/

/-- Function `parseFieldTag` (gen.go 168-183). -/
def parseFieldTag (t : String) : String × Bool :=
  match Split ',' t.data with
  | [] => ("", false)
  | [p0] => (String.mk p0, false)
  | [p0, p1] => if String.mk p1 = "pk" then (String.mk p0, true) else ("", false)
  | _ :: _ :: _ :: _ => ("", false)

/-! ## Standard library: reflect.StructTag, token.IsExported, regexp -/

/-- The inner loop of `StructTag.Lookup` that scans a quoted value: the argument
is the text after the opening quote; the result is the text up to the closing
quote (escapes kept) and the text after it, or `none` when no closing quote is
found. -/
def StructTag.scanQuoted : List Char → Option (List Char × List Char)
  | [] => none
  | c :: tl =>
    if c = '\x22' then some ([], tl)
    else if c = '\\' then
      match tl with
      | [] => none
      | d :: tl2 => (scanQuoted tl2).map fun r => (c :: d :: r.1, r.2)
    else (scanQuoted tl).map fun r => (c :: r.1, r.2)

/-- The character test of the key scan of `StructTag.Lookup`:
`tag[i] > 0x20 && tag[i] != 0x3a && tag[i] != 0x22 && tag[i] != 0x7f`. -/
def StructTag.isKeyChar (c : Char) : Bool :=
  decide (c.toNat > 0x20) && c != ':' && c != '\x22' && decide (c.toNat ≠ 0x7f)

/-- Go `strconv.Unquote` on the quoted value `qvalue` whose text between the quotes
is `body`: without a backslash the text is returned as it is unless it holds a
newline (a syntax error); with a backslash the escape decoder decides. -/
def StructTag.unquote (L : GoLib) (body : List Char) : Option (List Char) :=
  if '\\' ∈ body then L.unquoteEscaped ('\x22' :: body ++ ['\x22'])
  else if '\n' ∈ body then none
  else some body

/-- The loop of `reflect.StructTag.Lookup`; every round consumes at least one
character, so a fuel of the length of the tag plus one is never exhausted. -/
def StructTag.lookupLoop (L : GoLib) (key : List Char) : Nat → List Char → Option (List Char)
  | 0, _ => none
  | fuel + 1, tag =>
    let tag := tag.dropWhile (· = ' ')
    match tag.takeWhile isKeyChar, tag.dropWhile isKeyChar with
    | _ :: _, c0 :: c1 :: more =>
      if c0 = ':' ∧ c1 = '\x22' then
        match scanQuoted more with
        | none => none
        | some (body, rest) =>
          if key = tag.takeWhile isKeyChar then unquote L body
          else lookupLoop L key fuel rest
      else none
    | _, _ => none

/-- Go `reflect.StructTag(tag).Get(key)`: the value of `key`, or the empty string. -/
def StructTag.Get (L : GoLib) (tag : String) (key : String) : String :=
  match StructTag.lookupLoop L key.data (tag.data.length + 1) tag.data with
  | some v => String.mk v
  | none => ""

/-- Go `unicode.IsUpper`: the Latin-1 property table, then the `Upper` table. -/
def IsUpper (L : GoLib) (c : Char) : Bool :=
  if c.toNat ≤ 0xFF then
    decide (0x41 ≤ c.toNat ∧ c.toNat ≤ 0x5A) || decide (0xC0 ≤ c.toNat ∧ c.toNat ≤ 0xD6)
      || decide (0xD8 ≤ c.toNat ∧ c.toNat ≤ 0xDE)
  else L.upperTable c

/-- Go `(*ast.Ident).IsExported`, that is `token.IsExported(name)`: the first rune
is upper case (the first rune of the empty string is U+FFFD). -/
def IsExported (L : GoLib) (name : String) : Bool :=
  match name.data with
  | [] => IsUpper L (Char.ofNat 0xFFFD)
  | c :: _ => IsUpper L c

/-- The class `[0-9A-Za-z_]` of `commentRegexp`. -/
def isWordChar (c : Char) : Bool :=
  decide (0x30 ≤ c.toNat ∧ c.toNat ≤ 0x39) || decide (0x41 ≤ c.toNat ∧ c.toNat ≤ 0x5A)
    || decide (0x61 ≤ c.toNat ∧ c.toNat ≤ 0x7A) || c = '_'

/-- Go `commentRegexp.FindStringSubmatch(s)` for `commentRegexp = sky:([0-9A-Za-z_]+)`:
nil when nothing matches, else the leftmost match and its (greedy) group. -/
def commentRegexp.FindStringSubmatch : List Char → List String
  | [] => []
  | c :: cs =>
    if "sky:".data.isPrefixOf (c :: cs) ∧ ((c :: cs).drop 4).takeWhile isWordChar ≠ [] then
      [String.mk ("sky:".data ++ ((c :: cs).drop 4).takeWhile isWordChar),
       String.mk (((c :: cs).drop 4).takeWhile isWordChar)]
    else FindStringSubmatch cs

/-! ## The syntax tree of go/ast -/

/-- An `ast.Field` of a struct type: names, type, and the tag literal as written
(quotes included), `none` for a nil tag. -/
structure AstField where
  Names : List String
  Typ : Expr
  Tag : Option String
  deriving DecidableEq, Repr

/-- An `ast.StructType`. -/
structure StructType where
  Fields : List AstField
  Incomplete : Bool
  deriving DecidableEq, Repr

/-- The type expression of a type definition: a struct type or another shape. -/
inductive TypeExpr where
  | StructType (str : Skygen.StructType)
  | other
  deriving DecidableEq, Repr

/-- An `ast.TypeSpec`; `Doc` is the list of comment texts, `none` for nil. -/
structure TypeSpec where
  Doc : Option (List String)
  Name : String
  Typ : TypeExpr
  deriving DecidableEq, Repr

/-- An `ast.Spec`. -/
inductive Spec where
  | TypeSpec (ts : Skygen.TypeSpec)
  | other
  deriving DecidableEq, Repr

/-- An `ast.Decl`. -/
inductive Decl where
  | GenDecl (Doc : Option (List String)) (Specs : List Spec)
  | other
  deriving DecidableEq, Repr

/-- An `ast.File`. -/
structure AstFile where
  Decls : List Decl
  deriving DecidableEq, Repr

/-! ## Outcomes -/

/-- The errors the package returns. -/
inductive Err where
  | parseFile (msg : String)
  | anonymousField (typ : String) (ftype : Expr)
  | nonExportedField (typ name : String)
  | invalidTag (typ name : String)
  | pointerPK (typ name : String)
  | slicePK (typ name : String)
  | duplicatePK (typ name first : String)
  | noFields (typ : String)
  | duplicateColumn (typ name column usedBy : String)
  deriving DecidableEq, Repr

/-- The message of an error (`err.Error()`), from the format strings of gen.go. -/
def Err.Error (L : GoLib) : Err → String
  | .parseFile msg => msg
  | .anonymousField typ ftype =>
    "skygen: " ++ typ ++ " has anonymous field " ++ L.fmtExpr ftype ++
      " with \x27skygen:\x27 tag, it is not allowed"
  | .nonExportedField typ name =>
    "skygen: " ++ typ ++ " has non-exported field " ++ name ++
      " with \x27skygen:\x27 tag, it is not allowed"
  | .invalidTag typ name =>
    "skygen: " ++ typ ++ " has field " ++ name ++
      " with invalid \x27skygen:\x27 tag value, it is not allowed"
  | .pointerPK typ name =>
    "skygen: " ++ typ ++ " has pointer field " ++ name ++
      " with with \x27pk\x27 label in \x27skygen:\x27 tag, it is not allowed"
  | .slicePK typ name =>
    "skygen: " ++ typ ++ " has slice field " ++ name ++
      " with with \x27pk\x27 label in \x27skygen:\x27 tag, it is not allowed"
  | .duplicatePK typ name first =>
    "skygen: " ++ typ ++ " has field " ++ name ++
      " with with duplicate \x27pk\x27 label in \x27skygen:\x27 tag (first used by " ++ first ++
      "), it is not allowed"
  | .noFields typ =>
    "skygen: " ++ typ ++ " has no fields with \x27skygen:\x27 tag, it is not allowed"
  | .duplicateColumn typ name column usedBy =>
    "skygen: " ++ typ ++ " has field " ++ name ++
      " with \x27skygen:\x27 tag with duplicate column name " ++ column ++ " (used by " ++ usedBy ++
      "), it is not allowed"

/-- The outcome of a call that returns `(value, error)`. -/
inductive Outcome (α : Type) where
  /-- The call returns the value and a nil error. -/
  | ok (v : α)
  /-- The call returns the zero value (nil) and the error. -/
  | error (e : Err)
  /-- The call panics. -/
  | panic
  deriving DecidableEq, Repr

/-! ## gen/gen.go -/

/-- Function `fileGoType` (gen.go 64-85); `none` is the panic of the default branch. -/
def fileGoType : Expr → Option String
  | .StarExpr X => (fileGoType X).map fun s => "*" ++ s
  | .SelectorExpr X Sel => (fileGoType X).map fun s => s ++ "." ++ Sel
  | .Ident Name => if Name = "byte" then some "uint8" else some Name
  | .ArrayType Len Elt =>
    match fileGoType Len, fileGoType Elt with
    | some l, some e => some ("[" ++ l ++ "]" ++ e)
    | _, _ => none
  | .BasicLit Value => some Value
  | .nil => some ""
  | .other => none

/-- Function `commentText` (gen.go 87-93). -/
def commentText (g : List String) : String :=
  Join " " g

/-- The loop of `checkFields` (gen.go 190-197); `dupes` is the map from column
to field name, the newest entry first. -/
def checkFields.loop (typ : String) : List Field → List (String × String) → Option Err
  | [], _ => none
  | f :: fs, dupes =>
    match dupes.lookup f.Column with
    | some f2 => some (.duplicateColumn typ f.Name f.Column f2)
    | none => checkFields.loop typ fs ((f.Column, f.Name) :: dupes)

/-- Function `checkFields` (gen.go 185-199); `none` is the nil error. -/
def checkFields (s : Struct) : Option Err :=
  if s.Fields.length = 0 then some (.noFields s.Typ)
  else checkFields.loop s.Typ s.Fields []

/-- The slice `tag[1 : len(tag)-1]` on a tag literal: the literal starts and ends with a
quote character of one byte, so the slice drops the first and the last
character. -/
def stripQuotes (tag : String) : String :=
  String.mk (tag.data.drop 1).dropLast

/-- The member loop of `parseStructTypeSpec` (gen.go 101-161): the state is the
struct under construction `res` and the counter `n`. -/
def parseStructTypeSpec.loop (L : GoLib) : List AstField → Struct → Int → Outcome Struct
  | [], res, _ => .ok res
  | f :: rest, res, n =>
    match f.Tag with
    | none => loop L rest res n
    | some lit =>
      if lit.utf8ByteSize < 3 then loop L rest res n
      else
        let tag := StructTag.Get L (stripQuotes lit) "sky"
        if tag = "" ∨ tag = "-" then loop L rest res n
        else
          match f.Names with
          | [] => .error (.anonymousField res.Typ f.Typ)
          | _ :: _ :: _ => .panic
          | [name] =>
            if !IsExported L name then .error (.nonExportedField res.Typ name)
            else if (parseFieldTag tag).1 = "" then .error (.invalidTag res.Typ name)
            else
              match fileGoType f.Typ with
              | none => .panic
              | some typ =>
                if (parseFieldTag tag).2 = true ∧ HasPrefix typ "*" = true then
                  .error (.pointerPK res.Typ name)
                else if (parseFieldTag tag).2 = true ∧ HasPrefix typ "[" = true then
                  .error (.slicePK res.Typ name)
                else if (parseFieldTag tag).2 = true ∧ res.PkIndex ≥ 0 then
                  match res.Fields.get? res.PkIndex.toNat with
                  | some first => .error (.duplicatePK res.Typ name first.Name)
                  | none => .panic
                else
                  loop L rest
                    { res with
                      Fields := res.Fields ++
                        [{ Name := name, Typ := typ, Column := (parseFieldTag tag).1,
                           IsPK := (parseFieldTag tag).2 }]
                      PkIndex := if (parseFieldTag tag).2 = true then n else res.PkIndex }
                    (n + 1)

/-- Function `parseStructTypeSpec` (gen.go 95-166). -/
def parseStructTypeSpec (L : GoLib) (ts : TypeSpec) (str : StructType) : Outcome Struct :=
  match parseStructTypeSpec.loop L str.Fields
      { Typ := ts.Name, StoreName := "", Fields := [], PkIndex := -1 } 0 with
  | .ok res =>
    match checkFields res with
    | some err => .error err
    | none => .ok res
  | .error e => .error e
  | .panic => .panic

/-- The loop over `gd.Specs` of `File` (gen.go 26-56). -/
def File.specs (L : GoLib) (gdDoc : Option (List String)) (nSpecs : Nat) :
    List Spec → List Struct → Outcome (List Struct)
  | [], res => .ok res
  | .other :: rest, res => File.specs L gdDoc nSpecs rest res
  | .TypeSpec ts :: rest, res =>
    match (if ts.Doc = none ∧ nSpecs = 1 then gdDoc else ts.Doc) with
    | none => File.specs L gdDoc nSpecs rest res
    | some doc =>
      match commentRegexp.FindStringSubmatch (commentText doc).data with
      | _ :: table :: _ =>
        match ts.Typ with
        | .other => File.specs L gdDoc nSpecs rest res
        | .StructType str =>
          if str.Incomplete then File.specs L gdDoc nSpecs rest res
          else
            match parseStructTypeSpec L ts str with
            | .error e => .error e
            | .panic => .panic
            | .ok s => File.specs L gdDoc nSpecs rest (res ++ [{ s with StoreName := table }])
      | _ => File.specs L gdDoc nSpecs rest res

/-- The loop over `fileNode.Decls` of `File` (gen.go 21-57). -/
def File.decls (L : GoLib) : List Decl → List Struct → Outcome (List Struct)
  | [], res => .ok res
  | .other :: rest, res => File.decls L rest res
  | .GenDecl doc specs :: rest, res =>
    match File.specs L doc specs.length specs res with
    | .ok res2 => File.decls L rest res2
    | .error e => .error e
    | .panic => .panic

/-- Function `File` (gen.go 14-60) after `parser.ParseFile`, whose result is the argument
`parsed`.  The value is the returned pair (result slice, error), the nil slice
being the empty list; `none` means the call panics. -/
def File (L : GoLib) (parsed : Except String AstFile) : Option (List Struct × Option Err) :=
  match parsed with
  | .error msg => some ([], some (.parseFile msg))
  | .ok fileNode =>
    match File.decls L fileNode.Decls [] with
    | .ok res => some (res, none)
    | .error e => some ([], some e)
    | .panic => none

/-! ## The example file of the specification -/

/-- The members of the example type: `ID string` tagged sky:"id,pk" and
`Name string` tagged sky:"name", the tags written as raw string literals. -/
def userMembers : List AstField :=
  [{ Names := ["ID"], Typ := .Ident "string", Tag := some "\x60sky:\"id,pk\"\x60" },
   { Names := ["Name"], Typ := .Ident "string", Tag := some "\x60sky:\"name\"\x60" }]

/-- The struct type of the example. -/
def userStructType : StructType :=
  { Fields := userMembers, Incomplete := false }

/-- The type definition `User struct` of the example, without a doc comment
of its own. -/
def userTypeSpec : TypeSpec :=
  { Doc := none, Name := "User", Typ := .StructType userStructType }

/-- The example file: the declaration `type User struct` with the members
above under the doc comment `// sky:users`; the parser attaches the comment of
an ungrouped declaration to the declaration. -/
def userFile : AstFile :=
  { Decls := [.GenDecl (some ["// sky:users"]) [.TypeSpec userTypeSpec]] }

/-- The example file with the type inside a parenthesised group and the doc
comment attached to the type itself. -/
def userFileGrouped : AstFile :=
  { Decls := [.GenDecl none
      [.TypeSpec { userTypeSpec with Doc := some ["// User is a user.", "// sky:users"] }]] }

/-- A library instance for inputs that never reach the parameters: tag values
without a backslash, names in Latin-1, no anonymous mapped member. -/
def plainLib : GoLib :=
  { unquoteEscaped := fun _ => none, upperTable := fun _ => false, fmtExpr := fun _ => "" }

/-- The struct the specification gives for the example file. -/
def userStruct : Struct :=
  { Typ := "User", StoreName := "users", PkIndex := 0,
    Fields := [{ Name := "ID", Typ := "string", Column := "id", IsPK := true },
               { Name := "Name", Typ := "string", Column := "name", IsPK := false }] }

/-! ## The member walk, member by member -/

/-- The sky value of a member as the walk reads it (gen.go 102-109): the empty
string for a nil tag or a literal shorter than three bytes, else the value of
the key `sky` in the literal without its quotes. -/
def skyTag (L : GoLib) (f : AstField) : String :=
  match f.Tag with
  | none => ""
  | some lit => if lit.utf8ByteSize < 3 then "" else StructTag.Get L (stripQuotes lit) "sky"

/-- A member is mapped when its sky value is neither empty nor `-`. -/
def isMapped (L : GoLib) (f : AstField) : Bool :=
  decide (skyTag L f ≠ "" ∧ skyTag L f ≠ "-")

/-- The checks of the walk that look at one member only (gen.go 102-144):
`ok none` for a skipped member, `ok (some fld)` for the field of a member that
passes, otherwise the error or the panic. -/
def memberCheck (L : GoLib) (typ : String) (f : AstField) : Outcome (Option Field) :=
  if skyTag L f = "" ∨ skyTag L f = "-" then .ok none
  else
    match f.Names with
    | [] => .error (.anonymousField typ f.Typ)
    | _ :: _ :: _ => .panic
    | [name] =>
      if !IsExported L name then .error (.nonExportedField typ name)
      else if (parseFieldTag (skyTag L f)).1 = "" then .error (.invalidTag typ name)
      else
        match fileGoType f.Typ with
        | none => .panic
        | some t =>
          if (parseFieldTag (skyTag L f)).2 = true ∧ HasPrefix t "*" = true then
            .error (.pointerPK typ name)
          else if (parseFieldTag (skyTag L f)).2 = true ∧ HasPrefix t "[" = true then
            .error (.slicePK typ name)
          else
            .ok (some { Name := name, Typ := t, Column := (parseFieldTag (skyTag L f)).1,
                        IsPK := (parseFieldTag (skyTag L f)).2 })

/-- The field the specification describes for a mapped member: its name, the
spelling of its type, the column and the pk flag of its sky value. -/
def toField (L : GoLib) (f : AstField) : Field :=
  { Name := f.Names.headD "", Typ := (fileGoType f.Typ).getD "",
    Column := (parseFieldTag (skyTag L f)).1, IsPK := (parseFieldTag (skyTag L f)).2 }

/-- The fields the specification describes for a member list: the mapped
members in declaration order, each turned into its field. -/
def mappedFields (L : GoLib) (ms : List AstField) : List Field :=
  (ms.filter (isMapped L)).map (toField L)

/-- Every member passes the checks that look at one member only. -/
def AllOk (L : GoLib) (typ : String) (ms : List AstField) : Prop :=
  ∀ f ∈ ms, ∃ o, memberCheck L typ f = .ok o

/-- The number of fields marked as primary key. -/
def pkCount (fs : List Field) : Nat :=
  fs.countP (fun f => f.IsPK)

/-- The state a completed walk over `ms` leaves, started in state `res` with
counter `n`: the fields of the mapped members are appended, and the index of
the first primary key among them, counted from `n`, is recorded. -/
def walkResult (L : GoLib) (ms : List AstField) (res : Struct) (n : Int) : Struct :=
  { res with
    Fields := res.Fields ++ mappedFields L ms
    PkIndex :=
      if pkCount (mappedFields L ms) = 0 then res.PkIndex
      else n + ((mappedFields L ms).findIdx (fun f => f.IsPK) : Nat) }

/-- The struct `parseStructTypeSpec` starts from (gen.go 96-99). -/
def initStruct (ts : TypeSpec) : Struct :=
  { Typ := ts.Name, StoreName := "", Fields := [], PkIndex := -1 }

/-! ## Further example inputs -/

/-- The member `ID *string` tagged sky:"id,pk". -/
def ptrIdMember : AstField :=
  { Names := ["ID"], Typ := .StarExpr (.Ident "string"), Tag := some "\x60sky:\"id,pk\"\x60" }

/-- The member `Tags map[string]string` tagged sky:"tags"; a map type is a
shape `fileGoType` has no case for. -/
def mapMember : AstField :=
  { Names := ["Tags"], Typ := .other, Tag := some "\x60sky:\"tags\"\x60" }

/-- The struct type with the members `Tags map[string]string` and `ID *string`,
both mapped, the second as primary key. -/
def mapThenPtrPK : StructType :=
  { Fields := [mapMember, ptrIdMember], Incomplete := false }

/-- The struct type with the members `ID *string` (pk) and `Name string`: the
example type with a pointer as primary key. -/
def ptrUserStructType : StructType :=
  { Fields := [ptrIdMember,
      { Names := ["Name"], Typ := .Ident "string", Tag := some "\x60sky:\"name\"\x60" }],
    Incomplete := false }

/-- The member `Key string` tagged sky:"key,pk". -/
def keyPkMember : AstField :=
  { Names := ["Key"], Typ := .Ident "string", Tag := some "\x60sky:\"key,pk\"\x60" }

/-- The struct type with the members `ID *string` and `Key string`, both
tagged as primary key. -/
def ptrTwoPkStructType : StructType :=
  { Fields := [ptrIdMember, keyPkMember], Incomplete := false }

/-- The struct type with the members `ID string` and `Key string`, both tagged
as primary key. -/
def twoPkStructType : StructType :=
  { Fields := [{ Names := ["ID"], Typ := .Ident "string", Tag := some "\x60sky:\"id,pk\"\x60" },
               keyPkMember],
    Incomplete := false }

/-- The member `Key string` tagged sky:"id". -/
def keyIdMember : AstField :=
  { Names := ["Key"], Typ := .Ident "string", Tag := some "\x60sky:\"id\"\x60" }

/-- The struct type with the members `ID *string` tagged sky:"id,pk" and
`Key string` tagged sky:"id": two members mapped to the column `id`. -/
def ptrSameColumnStructType : StructType :=
  { Fields := [ptrIdMember, keyIdMember], Incomplete := false }

/-- The member `ID string` tagged sky:"id,pk". -/
def idPkMember : AstField :=
  { Names := ["ID"], Typ := .Ident "string", Tag := some "\x60sky:\"id,pk\"\x60" }

/-- The struct type with the members `ID string` tagged sky:"id,pk" and
`Key string` tagged sky:"id". -/
def sameColumnStructType : StructType :=
  { Fields := [idPkMember, keyIdMember], Incomplete := false }

/-! ## The targets of a file -/

/-- A type definition `File` hands to `parseStructTypeSpec`: the store name of
its marker, the definition and its struct type. -/
structure Target where
  table : String
  ts : TypeSpec
  str : StructType
  deriving DecidableEq, Repr

/-- The target a definition of a declaration group gives, if any (gen.go
27-49): its applicable doc comment matches the marker, its type is a struct
type, and the field list is complete. -/
def specTarget (gdDoc : Option (List String)) (nSpecs : Nat) : Spec → Option Target
  | .other => none
  | .TypeSpec ts =>
    match (if ts.Doc = none ∧ nSpecs = 1 then gdDoc else ts.Doc) with
    | none => none
    | some doc =>
      match commentRegexp.FindStringSubmatch (commentText doc).data with
      | _ :: table :: _ =>
        match ts.Typ with
        | .other => none
        | .StructType str => if str.Incomplete then none else some ⟨table, ts, str⟩
      | _ => none

/-- The targets of a declaration, in order. -/
def declTargets : Decl → List Target
  | .other => []
  | .GenDecl doc specs => specs.filterMap (specTarget doc specs.length)

/-- The targets of a list of declarations, in declaration order. -/
def declsTargets : List Decl → List Target
  | [] => []
  | d :: rest => declTargets d ++ declsTargets rest

/-- The targets of a file, in declaration order. -/
def fileTargets (f : AstFile) : List Target :=
  declsTargets f.Decls

/-- Function `File` seen from its targets: each is parsed in turn and appended with its
store name; the first error or panic ends the run. -/
def runTargets (L : GoLib) : List Target → List Struct → Outcome (List Struct)
  | [], res => .ok res
  | t :: rest, res =>
    match parseStructTypeSpec L t.ts t.str with
    | .ok s => runTargets L rest (res ++ [{ s with StoreName := t.table }])
    | .error e => .error e
    | .panic => .panic

/-- The example type with `ID *string` as primary key. -/
def ptrUserTypeSpec : TypeSpec :=
  { Doc := some ["// sky:ptr_users"], Name := "PtrUser", Typ := .StructType ptrUserStructType }

/-- A file with three marked types in one group: the valid `User`, then
`PtrUser` with `ID *string` as primary key, then the valid `User` again under
the name `Account`. -/
def abortFile : AstFile :=
  { Decls := [.GenDecl none
      [.TypeSpec { userTypeSpec with Doc := some ["// sky:users"] },
       .TypeSpec ptrUserTypeSpec,
       .TypeSpec { userTypeSpec with Doc := some ["// sky:accounts"], Name := "Account" }]] }

/-- A file with two marked types: `Tagged`, whose mapped member has a map type,
then `PtrUser` with `ID *string` as primary key. -/
def panicFile : AstFile :=
  { Decls := [.GenDecl none
      [.TypeSpec { Doc := some ["// sky:tagged"], Name := "Tagged",
                   Typ := .StructType { Fields := [mapMember], Incomplete := false } },
       .TypeSpec ptrUserTypeSpec]] }

/-! ## The doc comment of a type definition -/

/-- The doc comment `File` reads for a type definition (gen.go 31-34): the
comment of the definition, or the comment of the group when the definition has
none and the group has exactly one entry. -/
def applicableDoc (gdDoc : Option (List String)) (nSpecs : Nat) (ts : TypeSpec) :
    Option (List String) :=
  if ts.Doc = none ∧ nSpecs = 1 then gdDoc else ts.Doc

/-- The store name a doc comment gives (gen.go 38-42): the second entry of the
submatch, `none` when the submatch has fewer than two entries. -/
def docTable (doc : List String) : Option String :=
  match commentRegexp.FindStringSubmatch (commentText doc).data with
  | _ :: table :: _ => some table
  | _ => none

/-- The number of type definitions among the entries of a declaration group. -/
def typeDefCount (specs : List Spec) : Nat :=
  specs.countP fun sp =>
    match sp with
    | .TypeSpec _ => true
    | .other => false

/-- A group of two type definitions under the group comment `// sky:users`:
the example type `User` without a comment of its own, and `Account` with the
comment `// sky:accounts`. -/
def groupFile : AstFile :=
  { Decls := [.GenDecl (some ["// sky:users"])
      [.TypeSpec userTypeSpec,
       .TypeSpec { userTypeSpec with Doc := some ["// sky:accounts"], Name := "Account" }]] }

/-- A file without a marker: the type `PtrUser` with `ID *string` as primary
key under the doc comment `// PtrUser is a user.`. -/
def unmarkedFile : AstFile :=
  { Decls := [.GenDecl (some ["// PtrUser is a user."])
      [.TypeSpec { Doc := none, Name := "PtrUser", Typ := .StructType ptrUserStructType }]] }

/-! ## Shapes of type expressions -/

/-- The expression contains a node of a shape `fileGoType` has no case for. -/
def hasOther : Expr → Bool
  | .StarExpr X => hasOther X
  | .SelectorExpr X _ => hasOther X
  | .Ident _ => false
  | .ArrayType Len Elt => hasOther Len || hasOther Elt
  | .BasicLit _ => false
  | .nil => false
  | .other => true

/-- A length of a sequence type as the specification lists them: a literal, an
identifier, or absent. -/
def isLength : Expr → Bool
  | .BasicLit _ => true
  | .Ident _ => true
  | .nil => true
  | _ => false

/-- The type expressions the specification lists for field declarations:
pointer-to-T, qualified name, bare identifier, sequence of T with a literal,
identifier or absent length, and a literal. -/
def isFieldType : Expr → Bool
  | .StarExpr X => isFieldType X
  | .SelectorExpr X _ =>
    match X with
    | .Ident _ => true
    | _ => false
  | .Ident _ => true
  | .ArrayType Len Elt => isLength Len && isFieldType Elt
  | .BasicLit _ => true
  | .nil => false
  | .other => false

/-! ## gen/struct.go: HasPK, PKField -/

/-- Method `HasPK` (struct.go 31-33). -/
def Struct.HasPK (s : Struct) : Bool :=
  decide (s.PkIndex ≥ 0)

/-- Method `PKField` (struct.go 36-41): the panic for a view and the run-time
panic of an index out of range are both `panic`. -/
def Struct.PKField (s : Struct) : Outcome Field :=
  if !s.HasPK then .panic
  else
    match s.Fields.get? s.PkIndex.toNat with
    | some f => .ok f
    | none => .panic

/-! ## Example inputs on visibility and unmapped members -/

/-- The member `id string` tagged sky:"id": a mapped member whose name is not
exported. -/
def lowerIdMember : AstField :=
  { Names := ["id"], Typ := .Ident "string", Tag := some "\x60sky:\"id\"\x60" }

/-- The struct type with the members `Tags map[string]string` tagged sky:"tags"
and `id string` tagged sky:"id". -/
def mapThenLower : StructType :=
  { Fields := [mapMember, lowerIdMember], Incomplete := false }

/-- The struct type with the members `ID string` tagged sky:"id,pk" and
`id string` tagged sky:"id". -/
def idThenLower : StructType :=
  { Fields := [idPkMember, lowerIdMember], Incomplete := false }

/-- An anonymous, untagged member of a map type, a member `a, b chan int` with
two names that are not exported and the tag sky:"-", and a member `c func()`
whose tag has no sky key. -/
def inertMembers : List AstField :=
  [{ Names := [], Typ := .other, Tag := none },
   { Names := ["a", "b"], Typ := .other, Tag := some "\x60sky:\"-\"\x60" },
   { Names := ["c"], Typ := .other, Tag := some "\x60json:\"c\"\x60" }]

/-- The member `Name string` tagged sky:"name". -/
def nameMember : AstField :=
  { Names := ["Name"], Typ := .Ident "string", Tag := some "\x60sky:\"name\"\x60" }

/-! ## gen/field.go, gen/struct.go: GoString -/

/-- Method `Field.GoString` (field.go 16-18); `quote` is the rendering of a
string under the verb `%q` of `fmt`. -/
def Field.GoString (quote : String → String) (fi : Field) : String :=
  "\x7bName: " ++ quote fi.Name ++ ", Type: " ++ quote fi.Typ ++ ", Column: " ++
    quote fi.Column ++ "\x7d"

/-- The loop of `Struct.GoString` over the fields (struct.go 21-23). -/
def Struct.GoString.loop (quote : String → String) : List Field → String → String
  | [], res => res
  | f :: fs, res => Struct.GoString.loop quote fs (res ++ ("\t\t" ++ f.GoString quote ++ ",\n"))

/-- Method `Struct.GoString` (struct.go 16-28); the verb `%d` prints the index
in decimal. -/
def Struct.GoString (quote : String → String) (s : Struct) : String :=
  let res := "gen.Struct\x7b\n"
  let res := res ++ ("\tType: " ++ quote s.Typ ++ ",\n")
  let res := res ++ ("\tSQLName: " ++ quote s.StoreName ++ ",\n")
  let res := res ++ "\tFields: []gen.Field\x7b\n"
  let res := Struct.GoString.loop quote s.Fields res
  let res := res ++ "\t\x7d,\n"
  let res := res ++ ("\tPKFieldIndex: " ++ toString s.PkIndex ++ ",\n")
  res ++ "\x7d"

/-- A rendering of `%q` for strings of letters: the string between double
quotes. -/
def plainQuote (s : String) : String :=
  "\x22" ++ s ++ "\x22"

/-! ## Lemmas on `Split` -/

theorem Split_ne_nil (sep : Char) (s : List Char) : Split sep s ≠ [] := by
  induction s with
  | nil => simp [Split]
  | cons c cs ih =>
    unfold Split
    split
    · simp
    · split <;> simp

theorem Split_length (sep : Char) (s : List Char) :
    (Split sep s).length = s.count sep + 1 := by
  induction s with
  | nil => simp [Split]
  | cons c cs ih =>
    unfold Split
    by_cases h : c = sep
    · subst h
      simp [ih]
    · rw [if_neg h]
      have hc : (c :: cs).count sep = cs.count sep := by
        rw [List.count_cons]
        simp [h]
      rw [hc, ← ih]
      cases hs : Split sep cs with
      | nil => exact absurd hs (Split_ne_nil sep cs)
      | cons p ps => simp

theorem Split_of_not_mem (sep : Char) (s : List Char) (h : sep ∉ s) :
    Split sep s = [s] := by
  induction s with
  | nil => simp [Split]
  | cons c cs ih =>
    have hc : c ≠ sep := fun e => h (by simp [e])
    have hcs : sep ∉ cs := fun e => h (by simp [e])
    unfold Split
    rw [if_neg hc, ih hcs]

theorem Split_append_sep (sep : Char) (a b : List Char) (h : sep ∉ a) :
    Split sep (a ++ sep :: b) = a :: Split sep b := by
  induction a with
  | nil => simp [Split]
  | cons c cs ih =>
    have hc : c ≠ sep := fun e => h (by simp [e])
    have hcs : sep ∉ cs := fun e => h (by simp [e])
    have e : Split sep (c :: (cs ++ sep :: b)) = (c :: cs) :: Split sep b := by
      rw [Split, if_neg hc, ih hcs]
    simpa using e

/-! ## The fuel of `StructTag.lookupLoop` is never exhausted -/

theorem scanQuoted_length_aux (n : Nat) :
    ∀ (s body rest : List Char), s.length ≤ n →
      StructTag.scanQuoted s = some (body, rest) → rest.length < s.length := by
  induction n with
  | zero =>
    intro s body rest hn h
    have : s = [] := List.length_eq_zero.mp (by omega)
    subst this
    simp [StructTag.scanQuoted] at h
  | succ n ih =>
    intro s body rest hn h
    cases s with
    | nil => simp [StructTag.scanQuoted] at h
    | cons c tl =>
      unfold StructTag.scanQuoted at h
      simp only [List.length_cons] at hn
      by_cases hq : c = '\x22'
      · simp only [hq, if_true, Option.some.injEq, Prod.mk.injEq] at h
        rw [← h.2]
        simp
      · simp only [hq, if_false] at h
        by_cases hb : c = '\\'
        · simp only [hb, if_true] at h
          cases tl with
          | nil => simp at h
          | cons d tl2 =>
            simp only [Option.map_eq_some', Prod.mk.injEq, Prod.exists] at h
            obtain ⟨b, r, hs, -, hr⟩ := h
            simp only [List.length_cons] at hn
            have := ih tl2 b r (by omega) hs
            rw [← hr]
            simp only [List.length_cons]
            omega
        · simp only [hb, if_false, Option.map_eq_some', Prod.mk.injEq, Prod.exists] at h
          obtain ⟨b, r, hs, -, hr⟩ := h
          have := ih tl b r (by omega) hs
          rw [← hr]
          simp only [List.length_cons]
          omega

theorem scanQuoted_length (s body rest : List Char)
    (h : StructTag.scanQuoted s = some (body, rest)) : rest.length < s.length :=
  scanQuoted_length_aux s.length s body rest (le_refl _) h

theorem length_dropWhile_le {α : Type} (p : α → Bool) (l : List α) :
    (l.dropWhile p).length ≤ l.length := by
  induction l with
  | nil => simp
  | cons a l ih =>
    rw [List.dropWhile_cons]
    split
    · simp only [List.length_cons]
      omega
    · exact le_refl _

theorem lookupLoop_fuel (L : GoLib) (key : List Char) (fuel1 : Nat) :
    ∀ (fuel2 : Nat) (tag : List Char), tag.length < fuel1 → tag.length < fuel2 →
      StructTag.lookupLoop L key fuel1 tag = StructTag.lookupLoop L key fuel2 tag := by
  induction fuel1 with
  | zero => intro fuel2 tag h; omega
  | succ n ih =>
    intro fuel2 tag h1 h2
    cases fuel2 with
    | zero => omega
    | succ m =>
      unfold StructTag.lookupLoop
      simp only []
      have hd1 := length_dropWhile_le (fun c => decide (c = ' ')) tag
      split
      · rename_i c0 c1 more hk hdrop
        have hd2 := length_dropWhile_le StructTag.isKeyChar
          (List.dropWhile (fun c => decide (c = ' ')) tag)
        rw [hdrop] at hd2
        simp only [List.length_cons] at hd2
        by_cases hc : c0 = ':' ∧ c1 = '\x22'
        · simp only [if_pos hc]
          cases hq : StructTag.scanQuoted more with
          | none => rfl
          | some br =>
            obtain ⟨body, rest⟩ := br
            simp only []
            have hlen := scanQuoted_length more body rest hq
            by_cases hkey : key = List.takeWhile StructTag.isKeyChar
                (List.dropWhile (fun c => decide (c = ' ')) tag)
            · simp only [if_pos hkey]
            · simp only [if_neg hkey]
              exact ih m rest (by omega) (by omega)
        · simp only [if_neg hc]
      · rfl

/-- The model of `StructTag.Get` computes with enough fuel: any larger fuel gives the same
value. -/
theorem Get_fuel (L : GoLib) (tag key : String) (fuel : Nat) (h : tag.data.length < fuel) :
    StructTag.Get L tag key =
      match StructTag.lookupLoop L key.data fuel tag.data with
      | some v => String.mk v
      | none => "" := by
  unfold StructTag.Get
  rw [lookupLoop_fuel L key.data (tag.data.length + 1) fuel tag.data (by omega) h]

/-! ## C1: parseFieldTag -/

/-- C1. `parseFieldTag`: a tag `col` without a comma gives `(col, false)` and
`col,pk` gives `(col, true)`; a tag with more than one comma, or with exactly
one comma followed by a text other than `pk`, gives the empty column and
`false`. -/
theorem parseFieldTag_spec :
    (∀ col : String, ',' ∉ col.data →
      parseFieldTag col = (col, false) ∧ parseFieldTag (col ++ ",pk") = (col, true)) ∧
    (∀ t : String, 1 < t.data.count ',' → parseFieldTag t = ("", false)) ∧
    (∀ a b : String, ',' ∉ a.data → ',' ∉ b.data → b ≠ "pk" →
      parseFieldTag (a ++ "," ++ b) = ("", false)) := by
  refine ⟨fun col h => ⟨?_, ?_⟩, fun t h => ?_, fun a b ha hb hne => ?_⟩
  · simp [parseFieldTag, Split_of_not_mem _ _ h]
  · have e : (col ++ ",pk").data = col.data ++ ',' :: "pk".data := by
      simp [String.data_append]
    have hpk : Split ',' "pk".data = ["pk".data] := by decide
    simp [parseFieldTag, e, Split_append_sep _ _ _ h, hpk]
  · have hl := Split_length ',' t.data
    unfold parseFieldTag
    split
    · rfl
    · rename_i p0 hs
      rw [hs] at hl
      simp at hl
      omega
    · rename_i p0 p1 hs
      rw [hs] at hl
      simp at hl
      omega
    · rfl
  · have e : (a ++ "," ++ b).data = a.data ++ ',' :: b.data := by
      simp [String.data_append]
    have hb2 : String.mk b.data ≠ "pk" := by simpa using hne
    simp [parseFieldTag, e, Split_append_sep _ _ _ ha, Split_of_not_mem _ _ hb, hb2]

/-- Instances of C1 on the tags `id`, `id,pk`, `a,b,c` and `id,key`. -/
theorem parseFieldTag_spec_witness :
    (parseFieldTag "id" = ("id", false) ∧ parseFieldTag ("id" ++ ",pk") = ("id", true)) ∧
    parseFieldTag "a,b,c" = ("", false) ∧
    parseFieldTag ("id" ++ "," ++ "key") = ("", false) :=
  ⟨parseFieldTag_spec.1 "id" (by decide), parseFieldTag_spec.2.1 "a,b,c" (by decide),
    parseFieldTag_spec.2.2 "id" "key" (by decide) (by decide) (by decide)⟩

/-! ## C2: the end-to-end example -/

/-- C2. End-to-end example: on the file with the single type `User` whose doc
comment contains `sky:users`, with `ID string` tagged sky:"id,pk" and
`Name string` tagged sky:"name", `File` returns a nil error and exactly the one
struct of the specification; this holds for the comment on the declaration and
for the comment on the type. -/
theorem File_user_example (L : GoLib) :
    File L (.ok userFile) = some ([userStruct], none) ∧
    File L (.ok userFileGrouped) = some ([userStruct], none) :=
  ⟨rfl, rfl⟩

/-! ## The member walk: one step -/

theorem loop_nil (L : GoLib) (res : Struct) (n : Int) :
    parseStructTypeSpec.loop L [] res n = .ok res := by
  simp [parseStructTypeSpec.loop]

theorem loop_cons (L : GoLib) (f : AstField) (rest : List AstField) (res : Struct) (n : Int) :
    parseStructTypeSpec.loop L (f :: rest) res n =
      match memberCheck L res.Typ f with
      | .ok none => parseStructTypeSpec.loop L rest res n
      | .ok (some fld) =>
        if fld.IsPK = true ∧ res.PkIndex ≥ 0 then
          match res.Fields.get? res.PkIndex.toNat with
          | some first => .error (.duplicatePK res.Typ fld.Name first.Name)
          | none => .panic
        else
          parseStructTypeSpec.loop L rest
            { res with
              Fields := res.Fields ++ [fld]
              PkIndex := if fld.IsPK = true then n else res.PkIndex }
            (n + 1)
      | .error e => .error e
      | .panic => .panic := by
  rw [parseStructTypeSpec.loop]
  unfold memberCheck skyTag
  cases hT : f.Tag with
  | none => simp
  | some lit =>
    simp only []
    by_cases h3 : lit.utf8ByteSize < 3
    · simp [h3]
    · simp only [h3, if_false]
      by_cases hs : StructTag.Get L (stripQuotes lit) "sky" = "" ∨
          StructTag.Get L (stripQuotes lit) "sky" = "-"
      · simp [hs]
      · simp only [hs, if_false]
        rcases hN : f.Names with _ | ⟨name, _ | ⟨n2, more⟩⟩
        · simp
        · simp only []
          by_cases hE : IsExported L name
          · simp only [hE, Bool.not_true, Bool.false_eq_true, if_false]
            by_cases hC : (parseFieldTag (StructTag.Get L (stripQuotes lit) "sky")).1 = ""
            · simp [hC]
            · simp only [hC, if_false]
              cases hG : fileGoType f.Typ with
              | none => simp
              | some t =>
                simp only []
                split_ifs <;> simp_all
                all_goals rw [if_neg (by omega)]
          · simp [hE]
        · simp

/-! ## Facts on the checks of one member -/

theorem memberCheck_ok_none (L : GoLib) (typ : String) (f : AstField) :
    memberCheck L typ f = .ok none ↔ isMapped L f = false := by
  unfold memberCheck isMapped
  by_cases hs : skyTag L f = "" ∨ skyTag L f = "-"
  · simp only [hs, if_true, true_iff]
    rcases hs with h | h <;> simp [h]
  · simp only [hs, if_false]
    have hm : decide (skyTag L f ≠ "" ∧ skyTag L f ≠ "-") = true := by
      simp only [decide_eq_true_eq]
      exact ⟨fun h => hs (Or.inl h), fun h => hs (Or.inr h)⟩
    rw [hm]
    simp only [Bool.true_eq_false, iff_false]
    rcases f.Names with _ | ⟨name, _ | ⟨n2, more⟩⟩
    · simp
    · simp only []
      split_ifs
      · simp
      · simp
      · cases fileGoType f.Typ with
        | none => simp
        | some t =>
          simp only []
          split_ifs <;> simp
    · simp

theorem memberCheck_ok_some (L : GoLib) (typ : String) (f : AstField) (fld : Field)
    (h : memberCheck L typ f = .ok (some fld)) :
    isMapped L f = true ∧ fld = toField L f ∧ f.Names = [fld.Name] ∧
      fileGoType f.Typ = some fld.Typ ∧ fld.Column ≠ "" ∧ IsExported L fld.Name = true ∧
      (fld.IsPK = true → HasPrefix fld.Typ "*" = false ∧ HasPrefix fld.Typ "[" = false) := by
  unfold memberCheck at h
  by_cases hs : skyTag L f = "" ∨ skyTag L f = "-"
  · simp [hs] at h
  · simp only [hs, if_false] at h
    have hm : isMapped L f = true := by
      unfold isMapped
      simp only [decide_eq_true_eq]
      exact ⟨fun h => hs (Or.inl h), fun h => hs (Or.inr h)⟩
    rcases hN : f.Names with _ | ⟨name, _ | ⟨n2, more⟩⟩
    · simp [hN] at h
    · simp only [hN] at h
      by_cases hE : IsExported L name
      · simp only [hE, Bool.not_true, Bool.false_eq_true, if_false] at h
        by_cases hC : (parseFieldTag (skyTag L f)).1 = ""
        · simp [hC] at h
        · simp only [hC, if_false] at h
          cases hG : fileGoType f.Typ with
          | none => simp [hG] at h
          | some t =>
            simp only [hG] at h
            by_cases h1 : (parseFieldTag (skyTag L f)).2 = true ∧ HasPrefix t "*" = true
            · simp [h1] at h
            · by_cases h2 : (parseFieldTag (skyTag L f)).2 = true ∧ HasPrefix t "[" = true
              · rw [if_neg h1, if_pos h2] at h
                simp at h
              · simp only [h1, h2, if_false, Outcome.ok.injEq, Option.some.injEq] at h
                subst h
                refine ⟨hm, ?_, rfl, rfl, hC, hE, ?_⟩
                · simp [toField, hN, hG]
                · intro hpk
                  simp only at hpk
                  constructor
                  · cases hp : HasPrefix t "*" with
                    | false => rfl
                    | true => exact absurd ⟨hpk, hp⟩ h1
                  · cases hp : HasPrefix t "[" with
                    | false => rfl
                    | true => exact absurd ⟨hpk, hp⟩ h2
      · simp [hE] at h
    · simp [hN] at h

theorem mappedFields_nil (L : GoLib) : mappedFields L [] = [] := rfl

theorem mappedFields_cons_skip (L : GoLib) (f : AstField) (rest : List AstField)
    (h : isMapped L f = false) : mappedFields L (f :: rest) = mappedFields L rest := by
  simp [mappedFields, List.filter_cons, h]

theorem mappedFields_cons_mapped (L : GoLib) (f : AstField) (rest : List AstField)
    (h : isMapped L f = true) :
    mappedFields L (f :: rest) = toField L f :: mappedFields L rest := by
  simp [mappedFields, List.filter_cons, h]

theorem mappedFields_append (L : GoLib) (a b : List AstField) :
    mappedFields L (a ++ b) = mappedFields L a ++ mappedFields L b := by
  simp [mappedFields]

/-! ## The member walk: when it completes -/

theorem AllOk_cons (L : GoLib) (typ : String) (f : AstField) (rest : List AstField) :
    AllOk L typ (f :: rest) ↔ (∃ o, memberCheck L typ f = .ok o) ∧ AllOk L typ rest := by
  simp [AllOk]

theorem loop_ok_iff (L : GoLib) (ms : List AstField) :
    ∀ (res : Struct) (n : Int) (res2 : Struct), 0 ≤ n →
      (parseStructTypeSpec.loop L ms res n = .ok res2 ↔
        AllOk L res.Typ ms ∧
          pkCount (mappedFields L ms) + (if 0 ≤ res.PkIndex then 1 else 0) ≤ 1 ∧
          res2 = walkResult L ms res n) := by
  induction ms with
  | nil =>
    intro res n res2 _
    rw [loop_nil]
    simp only [Outcome.ok.injEq, AllOk, List.not_mem_nil, false_implies, implies_true, true_and,
      mappedFields_nil, pkCount, List.countP_nil, zero_add, walkResult, List.append_nil, if_true]
    constructor
    · intro h
      subst h
      exact ⟨by split <;> omega, rfl⟩
    · intro h
      exact h.2.symm
  | cons f rest ih =>
    intro res n res2 hn
    rw [loop_cons, AllOk_cons]
    cases hc : memberCheck L res.Typ f with
    | panic => simp
    | error e => simp
    | ok o =>
      cases o with
      | none =>
        have hm := (memberCheck_ok_none L res.Typ f).1 hc
        simp only [ih res n res2 hn, mappedFields_cons_skip L f rest hm, walkResult,
          Outcome.ok.injEq, exists_eq', true_and]
      | some fld =>
        obtain ⟨hm, hfld, -⟩ := memberCheck_ok_some L res.Typ f fld hc
        simp only [Outcome.ok.injEq, exists_eq', true_and]
        rw [mappedFields_cons_mapped L f rest hm, ← hfld]
        by_cases hpk : fld.IsPK = true
        · have hcount : pkCount (fld :: mappedFields L rest) = pkCount (mappedFields L rest) + 1 := by
            simp [pkCount, List.countP_cons, hpk]
          by_cases hres : 0 ≤ res.PkIndex
          · have hdup : fld.IsPK = true ∧ res.PkIndex ≥ 0 := ⟨hpk, hres⟩
            simp only [hdup, and_self, if_true, hcount, hres]
            constructor
            · intro h
              split at h <;> simp at h
            · intro h
              omega
          · have hnd : ¬ (fld.IsPK = true ∧ res.PkIndex ≥ 0) := fun h => hres h.2
            rw [if_neg hnd, ih _ (n + 1) res2 (by omega)]
            simp only [hpk, if_true, hn, hcount, hres, if_false, add_zero, walkResult,
              mappedFields_cons_mapped L f rest hm, ← hfld]
            constructor
            · rintro ⟨ha, hc1, rfl⟩
              have h0 : pkCount (mappedFields L rest) = 0 := by omega
              refine ⟨ha, by omega, ?_⟩
              simp [h0, List.findIdx_cons, hpk]
            · rintro ⟨ha, hc1, rfl⟩
              have h0 : pkCount (mappedFields L rest) = 0 := by omega
              refine ⟨ha, by omega, ?_⟩
              simp [h0, List.findIdx_cons, hpk]
        · have hnd : ¬ (fld.IsPK = true ∧ res.PkIndex ≥ 0) := fun h => hpk h.1
          have hcount : pkCount (fld :: mappedFields L rest) = pkCount (mappedFields L rest) := by
            simp [pkCount, List.countP_cons, hpk]
          rw [if_neg hnd, ih _ (n + 1) res2 (by omega)]
          simp only [hpk, if_false, hcount, walkResult, mappedFields_cons_mapped L f rest hm,
            ← hfld, Bool.false_eq_true]
          have hidx : ((fld :: mappedFields L rest).findIdx (fun f => f.IsPK) : Nat) =
              (mappedFields L rest).findIdx (fun f => f.IsPK) + 1 := by
            simp [List.findIdx_cons, hpk]
          rw [hidx]
          constructor
          · rintro ⟨ha, hc1, rfl⟩
            refine ⟨ha, hc1, ?_⟩
            simp only [List.append_assoc, List.singleton_append, Struct.mk.injEq, true_and]
            split
            · rfl
            · push_cast
              ring
          · rintro ⟨ha, hc1, rfl⟩
            refine ⟨ha, hc1, ?_⟩
            simp only [List.append_assoc, List.singleton_append, Struct.mk.injEq, true_and]
            split
            · rfl
            · push_cast
              ring

/-! ## checkFields -/

theorem lookup_cons_pair (c k v : String) (dupes : List (String × String)) :
    List.lookup c ((k, v) :: dupes) = if c = k then some v else List.lookup c dupes := by
  by_cases h : c = k
  · subst h
    simp [List.lookup]
  · have hb : (c == k) = false := by simpa using h
    simp [List.lookup, hb, h]

theorem checkLoop_none_iff (typ : String) (fs : List Field) :
    ∀ dupes : List (String × String),
      checkFields.loop typ fs dupes = none ↔
        (fs.map fun f => f.Column).Nodup ∧ ∀ f ∈ fs, dupes.lookup f.Column = none := by
  induction fs with
  | nil => intro dupes; simp [checkFields.loop]
  | cons f fs ih =>
    intro dupes
    rw [checkFields.loop]
    cases hl : dupes.lookup f.Column with
    | some f2 =>
      simp only [false_iff, not_and, reduceCtorEq]
      intro _ hall
      have := hall f (List.mem_cons_self f fs)
      rw [hl] at this
      exact absurd this (by simp)
    | none =>
      simp only [ih, List.map_cons, List.nodup_cons, List.mem_map, not_exists, not_and,
        List.mem_cons, forall_eq_or_imp, hl, true_and, lookup_cons_pair]
      constructor
      · rintro ⟨hnd, hall⟩
        refine ⟨⟨fun g hg hgc => ?_, hnd⟩, fun g hg => ?_⟩
        · have := hall g hg
          rw [if_pos hgc] at this
          exact absurd this (by simp)
        · have := hall g hg
          split at this
          · exact absurd this (by simp)
          · exact this
      · rintro ⟨⟨hne, hnd⟩, hall⟩
        refine ⟨hnd, fun g hg => ?_⟩
        rw [if_neg (hne g hg), hall g hg]

theorem checkFields_none_iff (s : Struct) :
    checkFields s = none ↔ s.Fields ≠ [] ∧ (s.Fields.map fun f => f.Column).Nodup := by
  unfold checkFields
  by_cases h : s.Fields.length = 0
  · have h0 : s.Fields = [] := List.length_eq_zero.mp h
    simp [h0]
  · have h0 : s.Fields ≠ [] := fun e => h (by simp [e])
    rw [if_neg h, checkLoop_none_iff]
    simp [h0, List.lookup]

theorem checkLoop_hit (typ : String) (y : Field) (v : String) (r : List Field) (q : List Field) :
    ∀ dupes : List (String × String),
      (∀ g ∈ q, dupes.lookup g.Column = none) → (q.map fun f => f.Column).Nodup →
      (∀ g ∈ q, g.Column ≠ y.Column) → dupes.lookup y.Column = some v →
      checkFields.loop typ (q ++ y :: r) dupes = some (.duplicateColumn typ y.Name y.Column v) := by
  induction q with
  | nil =>
    intro dupes _ _ _ hy
    simp [checkFields.loop, hy]
  | cons g q ih =>
    intro dupes hnone hnd hne hy
    simp only [List.cons_append]
    rw [checkFields.loop, hnone g (List.mem_cons_self g q)]
    simp only [List.map_cons, List.nodup_cons, List.mem_map, not_exists, not_and] at hnd
    apply ih
    · intro g2 hg2
      rw [lookup_cons_pair, if_neg (fun e => hnd.1 g2 hg2 e), hnone g2 (List.mem_cons_of_mem g hg2)]
    · exact hnd.2
    · intro g2 hg2
      exact hne g2 (List.mem_cons_of_mem g hg2)
    · rw [lookup_cons_pair, if_neg (fun e => hne g (List.mem_cons_self g q) e.symm), hy]

theorem checkLoop_dup (typ : String) (x y : Field) (q r : List Field) (p : List Field) :
    ∀ dupes : List (String × String),
      (∀ g ∈ p ++ x :: q, dupes.lookup g.Column = none) →
      ((p ++ x :: q).map fun f => f.Column).Nodup → y.Column = x.Column →
      checkFields.loop typ (p ++ x :: q ++ y :: r) dupes =
        some (.duplicateColumn typ y.Name y.Column x.Name) := by
  induction p with
  | nil =>
    intro dupes hnone hnd hxy
    simp only [List.nil_append, List.cons_append] at *
    rw [checkFields.loop, hnone x (List.mem_cons_self x q)]
    simp only [List.map_cons, List.nodup_cons, List.mem_map, not_exists, not_and] at hnd
    apply checkLoop_hit
    · intro g hg
      rw [lookup_cons_pair, if_neg (fun e => hnd.1 g hg e), hnone g (List.mem_cons_of_mem x hg)]
    · exact hnd.2
    · intro g hg e
      exact hnd.1 g hg (e.trans hxy)
    · rw [lookup_cons_pair, if_pos hxy]
  | cons g p ih =>
    intro dupes hnone hnd hxy
    simp only [List.cons_append, List.append_assoc] at *
    rw [checkFields.loop, hnone g (List.mem_cons_self g _)]
    simp only [List.map_cons, List.nodup_cons, List.mem_map, not_exists, not_and] at hnd
    apply ih
    · intro g2 hg2
      rw [lookup_cons_pair, if_neg (fun e => hnd.1 g2 hg2 e), hnone g2 (List.mem_cons_of_mem g hg2)]
    · exact hnd.2
    · exact hxy

/-! ## parseStructTypeSpec: when it returns a struct -/

theorem parseStructTypeSpec_eq (L : GoLib) (ts : TypeSpec) (str : StructType) :
    parseStructTypeSpec L ts str =
      match parseStructTypeSpec.loop L str.Fields (initStruct ts) 0 with
      | .ok res =>
        match checkFields res with
        | some err => .error err
        | none => .ok res
      | .error e => .error e
      | .panic => .panic := rfl

theorem walkResult_init_Fields (L : GoLib) (ts : TypeSpec) (ms : List AstField) :
    (walkResult L ms (initStruct ts) 0).Fields = mappedFields L ms := by
  simp [walkResult, initStruct]

theorem parseStructTypeSpec_ok_iff (L : GoLib) (ts : TypeSpec) (str : StructType) (s : Struct) :
    parseStructTypeSpec L ts str = .ok s ↔
      AllOk L ts.Name str.Fields ∧ pkCount (mappedFields L str.Fields) ≤ 1 ∧
        mappedFields L str.Fields ≠ [] ∧
        ((mappedFields L str.Fields).map fun f => f.Column).Nodup ∧
        s = walkResult L str.Fields (initStruct ts) 0 := by
  rw [parseStructTypeSpec_eq]
  have hiff := loop_ok_iff L str.Fields (initStruct ts) 0
  have hpk : ¬ (0 : Int) ≤ (initStruct ts).PkIndex := by simp [initStruct]
  simp only [hpk, if_false, add_zero, le_refl, true_implies] at hiff
  have hT : (initStruct ts).Typ = ts.Name := rfl
  rw [hT] at hiff
  cases hl : parseStructTypeSpec.loop L str.Fields (initStruct ts) 0 with
  | panic =>
    simp only [false_iff, reduceCtorEq]
    rintro ⟨ha, hc, -, -, -⟩
    have := (hiff _).2 ⟨ha, hc, rfl⟩
    rw [hl] at this
    exact absurd this (by simp)
  | error e =>
    simp only [false_iff, reduceCtorEq]
    rintro ⟨ha, hc, -, -, -⟩
    have := (hiff _).2 ⟨ha, hc, rfl⟩
    rw [hl] at this
    exact absurd this (by simp)
  | ok res =>
    obtain ⟨ha, hc, hres⟩ := (hiff res).1 hl
    have hF : res.Fields = mappedFields L str.Fields := by
      rw [hres, walkResult_init_Fields]
    simp only []
    cases hk : checkFields res with
    | none =>
      have := (checkFields_none_iff res).1 hk
      rw [hF] at this
      simp only [Outcome.ok.injEq]
      constructor
      · rintro rfl
        exact ⟨ha, hc, this.1, this.2, hres⟩
      · rintro ⟨-, -, -, -, hs⟩
        rw [hs, hres]
    | some err =>
      simp only [false_iff, reduceCtorEq]
      rintro ⟨-, -, hne, hnd, -⟩
      have : checkFields res = none := by
        rw [checkFields_none_iff, hF]
        exact ⟨hne, hnd⟩
      rw [hk] at this
      exact absurd this (by simp)

theorem AllOk_perm (L : GoLib) (typ : String) (ms ms2 : List AstField) (hp : ms2.Perm ms)
    (h : AllOk L typ ms) : AllOk L typ ms2 :=
  fun f hf => h f (hp.mem_iff.1 hf)

theorem mappedFields_perm (L : GoLib) (ms ms2 : List AstField) (hp : ms2.Perm ms) :
    (mappedFields L ms2).Perm (mappedFields L ms) :=
  (hp.filter _).map _

/-! ## C3: field order -/

/-- C3. Field order: when `parseStructTypeSpec` returns a struct, its `Fields`
is the list of the mapped members in declaration order, each turned into the
field of its name, spelled type, column and pk flag (every mapped member has
exactly one name and a type that can be spelled, so these are its own); the
same holds for every permutation of the members, on which the call succeeds
too, so permuting the members permutes `Fields` in the same way. -/
theorem parseStructTypeSpec_Fields_order (L : GoLib) (ts : TypeSpec) (str : StructType)
    (s : Struct) (h : parseStructTypeSpec L ts str = .ok s) :
    s.Fields = mappedFields L str.Fields ∧
    (∀ f ∈ str.Fields, isMapped L f = true →
      ∃ name typ, f.Names = [name] ∧ fileGoType f.Typ = some typ ∧
        toField L f = { Name := name, Typ := typ, Column := (parseFieldTag (skyTag L f)).1,
                        IsPK := (parseFieldTag (skyTag L f)).2 }) ∧
    (∀ ms2 : List AstField, ms2.Perm str.Fields →
      ∃ s2, parseStructTypeSpec L ts { str with Fields := ms2 } = .ok s2 ∧
        s2.Fields = mappedFields L ms2 ∧ s2.Fields.Perm s.Fields) := by
  obtain ⟨ha, hc, hne, hnd, hs⟩ := (parseStructTypeSpec_ok_iff L ts str s).1 h
  have hF : s.Fields = mappedFields L str.Fields := by rw [hs, walkResult_init_Fields]
  refine ⟨hF, ?_, ?_⟩
  · intro f hf hm
    obtain ⟨o, ho⟩ := ha f hf
    cases o with
    | none =>
      rw [(memberCheck_ok_none L ts.Name f).1 ho] at hm
      exact absurd hm (by simp)
    | some fld =>
      obtain ⟨-, hfld, hN, hG, -⟩ := memberCheck_ok_some L ts.Name f fld ho
      refine ⟨fld.Name, fld.Typ, hN, hG, ?_⟩
      simp [toField, hN, hG]
  · intro ms2 hp
    have hp2 := mappedFields_perm L str.Fields ms2 hp
    have hok : parseStructTypeSpec L ts { str with Fields := ms2 } =
        .ok (walkResult L ms2 (initStruct ts) 0) := by
      rw [parseStructTypeSpec_ok_iff]
      refine ⟨AllOk_perm L ts.Name str.Fields ms2 hp ha, ?_, ?_, ?_, rfl⟩
      · show pkCount (mappedFields L ms2) ≤ 1
        unfold pkCount at hc ⊢
        rw [hp2.countP_eq]
        exact hc
      · intro e
        have e2 : mappedFields L ms2 = [] := e
        rw [e2] at hp2
        exact hne hp2.symm.eq_nil
      · exact ((hp2.map _).nodup_iff).2 hnd
    refine ⟨_, hok, walkResult_init_Fields L ts ms2, ?_⟩
    rw [walkResult_init_Fields, hF]
    exact hp2

/-- An instance of C3: the example type `User`. -/
theorem parseStructTypeSpec_Fields_order_witness :
    parseStructTypeSpec plainLib userTypeSpec userStructType = .ok { userStruct with StoreName := "" } ∧
    ({ userStruct with StoreName := "" } : Struct).Fields = mappedFields plainLib userStructType.Fields :=
  ⟨by decide,
    (parseStructTypeSpec_Fields_order plainLib userTypeSpec userStructType _ (by decide)).1⟩

/-! ## C4: the primary-key invariant -/

theorem findIdx_of_countP_le_one {α : Type} (p : α → Bool) (l : List α) :
    l.countP p ≤ 1 → ∀ (i : Nat) (hi : i < l.length), p (l.get ⟨i, hi⟩) = true →
      l.findIdx p = i := by
  induction l with
  | nil => intro _ i hi; simp at hi
  | cons a l ih =>
    intro hc i hi hp
    by_cases ha : p a = true
    · have h0 : l.countP p = 0 := by
        rw [List.countP_cons_of_pos _ _ ha] at hc
        omega
      cases i with
      | zero => simp [List.findIdx_cons, ha]
      | succ k =>
        exfalso
        have hk : k < l.length := by simpa using hi
        have hmem : l.get ⟨k, hk⟩ ∈ l := List.get_mem l k hk
        have hz := List.countP_eq_zero.1 h0 (l.get ⟨k, hk⟩) hmem
        have hp2 : p (l.get ⟨k, hk⟩) = true := by simpa using hp
        exact hz hp2
    · have hc2 : l.countP p ≤ 1 := by
        rw [List.countP_cons_of_neg _ _ ha] at hc
        exact hc
      cases i with
      | zero =>
        exfalso
        exact ha (by simpa using hp)
      | succ k =>
        have hk : k < l.length := by simpa using hi
        have hp2 : p (l.get ⟨k, hk⟩) = true := by simpa using hp
        have := ih hc2 k hk hp2
        simp [List.findIdx_cons, ha, this]

/-- C4. Primary-key invariant: in a struct returned by `parseStructTypeSpec`
at most one field has `IsPK`; if none has, `PkIndex` is -1; if the field at
index `i` has, `PkIndex` is `i` (so `PkIndex` is within range and points at
the one such field). -/
theorem parseStructTypeSpec_pk_invariant (L : GoLib) (ts : TypeSpec) (str : StructType)
    (s : Struct) (h : parseStructTypeSpec L ts str = .ok s) :
    (∀ (i j : Nat) (hi : i < s.Fields.length) (hj : j < s.Fields.length),
      (s.Fields.get ⟨i, hi⟩).IsPK = true → (s.Fields.get ⟨j, hj⟩).IsPK = true → i = j) ∧
    ((∀ f ∈ s.Fields, f.IsPK = false) → s.PkIndex = -1) ∧
    (∀ (i : Nat) (hi : i < s.Fields.length),
      (s.Fields.get ⟨i, hi⟩).IsPK = true → s.PkIndex = (i : Int)) ∧
    (s.PkIndex = -1 ∨ ∃ (i : Nat) (hi : i < s.Fields.length),
      s.PkIndex = (i : Int) ∧ (s.Fields.get ⟨i, hi⟩).IsPK = true) := by
  obtain ⟨-, hc, -, -, hs⟩ := (parseStructTypeSpec_ok_iff L ts str s).1 h
  have hF : s.Fields = mappedFields L str.Fields := by rw [hs, walkResult_init_Fields]
  have hP : s.PkIndex = if pkCount s.Fields = 0 then -1
      else ((s.Fields.findIdx (fun f => f.IsPK) : Nat) : Int) := by
    rw [hF, hs]
    simp [walkResult, initStruct]
  have hc2 : s.Fields.countP (fun f => f.IsPK) ≤ 1 := by
    rw [hF]
    exact hc
  have hidx := findIdx_of_countP_le_one (fun f : Field => f.IsPK) s.Fields hc2
  have hthird : ∀ (i : Nat) (hi : i < s.Fields.length),
      (s.Fields.get ⟨i, hi⟩).IsPK = true → s.PkIndex = (i : Int) := by
    intro i hi hp
    have hpos : pkCount s.Fields ≠ 0 := by
      unfold pkCount
      intro h0
      exact List.countP_eq_zero.1 h0 _ (List.get_mem s.Fields i hi) hp
    rw [hP, if_neg hpos, hidx i hi hp]
  refine ⟨?_, ?_, hthird, ?_⟩
  · intro i j hi hj hpi hpj
    rw [← hidx i hi hpi, ← hidx j hj hpj]
  · intro hall
    have h0 : pkCount s.Fields = 0 := by
      unfold pkCount
      rw [List.countP_eq_zero]
      intro f hf
      simp [hall f hf]
    rw [hP, if_pos h0]
  · by_cases h0 : pkCount s.Fields = 0
    · left
      rw [hP, if_pos h0]
    · right
      have hex : ∃ f ∈ s.Fields, f.IsPK = true := by
        by_contra hne
        apply h0
        unfold pkCount
        rw [List.countP_eq_zero]
        intro f hf hp
        exact hne ⟨f, hf, hp⟩
      obtain ⟨f, hf, hp⟩ := hex
      obtain ⟨⟨i, hi⟩, hget⟩ := List.mem_iff_get.1 hf
      have hp2 : (s.Fields.get ⟨i, hi⟩).IsPK = true := by rw [hget]; exact hp
      exact ⟨i, hi, hthird i hi hp2, hp2⟩

/-- An instance of C4: in the example type `User` the field at index 0 is the
primary key and `PkIndex` is 0. -/
theorem parseStructTypeSpec_pk_invariant_witness :
    parseStructTypeSpec plainLib userTypeSpec userStructType = .ok { userStruct with StoreName := "" } ∧
    ({ userStruct with StoreName := "" } : Struct).PkIndex = ((0 : Nat) : Int) :=
  ⟨by decide,
    (parseStructTypeSpec_pk_invariant plainLib userTypeSpec userStructType _ (by decide)).2.2.1
      0 (by decide) (by decide)⟩

/-! ## C5: the column invariant -/

theorem mem_mappedFields (L : GoLib) (ms : List AstField) (fld : Field)
    (h : fld ∈ mappedFields L ms) : ∃ f ∈ ms, isMapped L f = true ∧ toField L f = fld := by
  simp only [mappedFields, List.mem_map, List.mem_filter] at h
  obtain ⟨f, ⟨hf, hm⟩, he⟩ := h
  exact ⟨f, hf, hm, he⟩

theorem AllOk_mapped (L : GoLib) (typ : String) (ms : List AstField) (h : AllOk L typ ms)
    (f : AstField) (hf : f ∈ ms) (hm : isMapped L f = true) :
    memberCheck L typ f = .ok (some (toField L f)) := by
  obtain ⟨o, ho⟩ := h f hf
  cases o with
  | none =>
    rw [(memberCheck_ok_none L typ f).1 ho] at hm
    exact absurd hm (by simp)
  | some fld =>
    obtain ⟨-, hfld, -⟩ := memberCheck_ok_some L typ f fld ho
    rw [ho, hfld]

/-- C5. Column invariant: in a struct returned by `parseStructTypeSpec` every
field has a non-empty `Column`, and fields at different indices have different
columns. -/
theorem parseStructTypeSpec_column_invariant (L : GoLib) (ts : TypeSpec) (str : StructType)
    (s : Struct) (h : parseStructTypeSpec L ts str = .ok s) :
    (∀ f ∈ s.Fields, f.Column ≠ "") ∧
    (∀ (i j : Nat) (hi : i < s.Fields.length) (hj : j < s.Fields.length),
      i ≠ j → (s.Fields.get ⟨i, hi⟩).Column ≠ (s.Fields.get ⟨j, hj⟩).Column) := by
  obtain ⟨ha, -, -, hnd, hs⟩ := (parseStructTypeSpec_ok_iff L ts str s).1 h
  have hF : s.Fields = mappedFields L str.Fields := by rw [hs, walkResult_init_Fields]
  rw [← hF] at hnd
  constructor
  · intro fld hfld
    rw [hF] at hfld
    obtain ⟨f, hf, hm, he⟩ := mem_mappedFields L str.Fields fld hfld
    have hc := AllOk_mapped L ts.Name str.Fields ha f hf hm
    rw [he] at hc
    exact (memberCheck_ok_some L ts.Name f fld hc).2.2.2.2.1
  · intro i j hi hj hij hcol
    have hi2 : i < (s.Fields.map fun f => f.Column).length := by simpa using hi
    have hj2 : j < (s.Fields.map fun f => f.Column).length := by simpa using hj
    have hinj := (List.Nodup.get_inj_iff hnd (i := ⟨i, hi2⟩) (j := ⟨j, hj2⟩)).1
      (by simpa using hcol)
    exact hij (by simpa using hinj)

/-- An instance of C5: the columns `id` and `name` of the example type `User`. -/
theorem parseStructTypeSpec_column_invariant_witness :
    parseStructTypeSpec plainLib userTypeSpec userStructType = .ok { userStruct with StoreName := "" } ∧
    ∀ f ∈ ({ userStruct with StoreName := "" } : Struct).Fields, f.Column ≠ "" :=
  ⟨by decide,
    (parseStructTypeSpec_column_invariant plainLib userTypeSpec userStructType _ (by decide)).1⟩

/-! ## C6: no mapped fields -/

/-- C6. No mapped fields: when every member is untagged, has an empty sky value
or the sky value `-` (the empty member list included), `parseStructTypeSpec`
returns the no-fields error for the type; and every struct it returns has a
non-empty `Fields`. -/
theorem parseStructTypeSpec_no_fields (L : GoLib) (ts : TypeSpec) (str : StructType) :
    ((∀ f ∈ str.Fields, f.Tag = none ∨ skyTag L f = "" ∨ skyTag L f = "-") →
      parseStructTypeSpec L ts str = .error (.noFields ts.Name)) ∧
    (∀ s, parseStructTypeSpec L ts str = .ok s → s.Fields ≠ []) := by
  constructor
  · intro hall
    have hun : ∀ f ∈ str.Fields, isMapped L f = false := by
      intro f hf
      have : skyTag L f = "" ∨ skyTag L f = "-" := by
        rcases hall f hf with h | h | h
        · left
          simp [skyTag, h]
        · exact Or.inl h
        · exact Or.inr h
      unfold isMapped
      rcases this with h | h <;> simp [h]
    have hm : mappedFields L str.Fields = [] := by
      simp only [mappedFields, List.map_eq_nil_iff, List.filter_eq_nil_iff]
      intro f hf
      simp [hun f hf]
    have hok : AllOk L ts.Name str.Fields := fun f hf =>
      ⟨none, (memberCheck_ok_none L ts.Name f).2 (hun f hf)⟩
    have hl : parseStructTypeSpec.loop L str.Fields (initStruct ts) 0 =
        .ok (walkResult L str.Fields (initStruct ts) 0) := by
      rw [loop_ok_iff L str.Fields (initStruct ts) 0 _ (le_refl 0)]
      exact ⟨hok, by simp [hm, pkCount, initStruct], rfl⟩
    rw [parseStructTypeSpec_eq, hl]
    simp [checkFields, walkResult, hm, initStruct]
  · intro s h
    obtain ⟨-, -, hne, -, hs⟩ := (parseStructTypeSpec_ok_iff L ts str s).1 h
    rw [hs, walkResult_init_Fields]
    exact hne

/-- An instance of C6: a struct type whose only member is untagged. -/
theorem parseStructTypeSpec_no_fields_witness :
    parseStructTypeSpec plainLib userTypeSpec
      { Fields := [{ Names := ["ID"], Typ := .Ident "string", Tag := none }], Incomplete := false } =
      .error (.noFields "User") :=
  (parseStructTypeSpec_no_fields plainLib userTypeSpec
    { Fields := [{ Names := ["ID"], Typ := .Ident "string", Tag := none }], Incomplete := false }).1
    (by simp)

/-! ## The member walk: when it panics -/

theorem memberCheck_panic (L : GoLib) (typ : String) (f : AstField)
    (h : memberCheck L typ f = .panic) :
    isMapped L f = true ∧ (2 ≤ f.Names.length ∨ fileGoType f.Typ = none) := by
  unfold memberCheck at h
  by_cases hs : skyTag L f = "" ∨ skyTag L f = "-"
  · simp [hs] at h
  · simp only [hs, if_false] at h
    have hm : isMapped L f = true := by
      unfold isMapped
      simp only [decide_eq_true_eq]
      exact ⟨fun h => hs (Or.inl h), fun h => hs (Or.inr h)⟩
    refine ⟨hm, ?_⟩
    rcases hN : f.Names with _ | ⟨name, _ | ⟨n2, more⟩⟩
    · simp [hN] at h
    · simp only [hN] at h
      right
      cases hG : fileGoType f.Typ with
      | none => rfl
      | some t =>
        exfalso
        simp only [hG] at h
        split_ifs at h
    · left
      simp

theorem loop_panic (L : GoLib) (ms : List AstField) :
    ∀ (res : Struct) (n : Int), res.PkIndex < res.Fields.length → n = res.Fields.length →
      parseStructTypeSpec.loop L ms res n = .panic →
      ∃ f ∈ ms, memberCheck L res.Typ f = .panic := by
  induction ms with
  | nil =>
    intro res n _ _ h
    simp [loop_nil] at h
  | cons f rest ih =>
    intro res n hpk hn h
    rw [loop_cons] at h
    cases hc : memberCheck L res.Typ f with
    | panic => exact ⟨f, List.mem_cons_self f rest, hc⟩
    | error e => simp [hc] at h
    | ok o =>
      rw [hc] at h
      cases o with
      | none =>
        obtain ⟨g, hg, hgp⟩ := ih res n hpk hn h
        exact ⟨g, List.mem_cons_of_mem f hg, hgp⟩
      | some fld =>
        simp only [] at h
        by_cases hd : fld.IsPK = true ∧ res.PkIndex ≥ 0
        · exfalso
          rw [if_pos hd] at h
          have hlt : res.PkIndex.toNat < res.Fields.length := by
            have := hd.2
            omega
          rw [List.get?_eq_get hlt] at h
          simp at h
        · rw [if_neg hd] at h
          have := ih _ (n + 1) (by
            simp only [List.length_append, List.length_singleton]
            split <;> push_cast <;> omega) (by simp [hn]) h
          obtain ⟨g, hg, hgp⟩ := this
          exact ⟨g, List.mem_cons_of_mem f hg, hgp⟩

theorem parseStructTypeSpec_panic (L : GoLib) (ts : TypeSpec) (str : StructType)
    (h : parseStructTypeSpec L ts str = .panic) :
    ∃ f ∈ str.Fields, isMapped L f = true ∧ (2 ≤ f.Names.length ∨ fileGoType f.Typ = none) := by
  rw [parseStructTypeSpec_eq] at h
  cases hl : parseStructTypeSpec.loop L str.Fields (initStruct ts) 0 with
  | panic =>
    obtain ⟨f, hf, hp⟩ := loop_panic L str.Fields (initStruct ts) 0
      (by simp [initStruct]) (by simp [initStruct]) hl
    exact ⟨f, hf, memberCheck_panic L _ f hp⟩
  | error e => simp [hl] at h
  | ok res =>
    rw [hl] at h
    simp only [] at h
    cases hk : checkFields res <;> simp [hk] at h

/-! ## C7: pointer and sequence primary keys -/

/-- C7, as stated, fails: the struct type with `Tags map[string]string` tagged
sky:"tags" followed by `ID *string` tagged sky:"id,pk" contains a mapped
pointer member that requests pk, and `parseStructTypeSpec` panics on it (in
`fileGoType`, on the map type) instead of returning a validation error. -/
theorem pointerPK_panic_counterexample :
    ptrIdMember ∈ mapThenPtrPK.Fields ∧ isMapped plainLib ptrIdMember = true ∧
      (parseFieldTag (skyTag plainLib ptrIdMember)).2 = true ∧
      fileGoType ptrIdMember.Typ = some "*string" ∧ HasPrefix "*string" "*" = true ∧
      parseStructTypeSpec plainLib userTypeSpec mapThenPtrPK = .panic ∧
      ¬ ∃ e, parseStructTypeSpec plainLib userTypeSpec mapThenPtrPK = .error e := by
  have hp : parseStructTypeSpec plainLib userTypeSpec mapThenPtrPK = .panic := by decide
  refine ⟨by decide, by decide, by decide, by decide, by decide, hp, ?_⟩
  rintro ⟨e, he⟩
  rw [hp] at he
  exact absurd he (by simp)

/-- C7, amended. For a struct type with a mapped member that requests pk and
whose spelled type begins with `*` or `[`, `parseStructTypeSpec` never returns
a struct; it returns a validation error whenever no mapped member has several
names or a type `fileGoType` cannot spell (otherwise it may panic).  Hence in
every returned struct a field with `IsPK` has a type that begins with neither
`*` nor `[`. -/
theorem parseStructTypeSpec_pointer_pk (L : GoLib) (ts : TypeSpec) (str : StructType) :
    (∀ m ∈ str.Fields, ∀ t : String, isMapped L m = true →
      (parseFieldTag (skyTag L m)).2 = true → fileGoType m.Typ = some t →
      (HasPrefix t "*" = true ∨ HasPrefix t "[" = true) →
      (∀ s, parseStructTypeSpec L ts str ≠ .ok s) ∧
      ((∀ f ∈ str.Fields, isMapped L f = true →
          f.Names.length ≤ 1 ∧ fileGoType f.Typ ≠ none) →
        ∃ e, parseStructTypeSpec L ts str = .error e)) ∧
    (∀ s, parseStructTypeSpec L ts str = .ok s → ∀ fld ∈ s.Fields, fld.IsPK = true →
      HasPrefix fld.Typ "*" = false ∧ HasPrefix fld.Typ "[" = false) := by
  constructor
  · intro m hm t hmap hpk hG hpre
    have hnot : ∀ s, parseStructTypeSpec L ts str ≠ .ok s := by
      intro s hs
      obtain ⟨ha, -⟩ := (parseStructTypeSpec_ok_iff L ts str s).1 hs
      have hc := AllOk_mapped L ts.Name str.Fields ha m hm hmap
      obtain ⟨-, -, -, hG2, -, -, hno⟩ := memberCheck_ok_some L ts.Name m _ hc
      have ht : (toField L m).Typ = t := by
        rw [hG] at hG2
        exact (Option.some.inj hG2).symm
      have := hno hpk
      rw [ht] at this
      rcases hpre with h | h
      · rw [this.1] at h
        exact absurd h (by simp)
      · rw [this.2] at h
        exact absurd h (by simp)
    refine ⟨hnot, fun hall => ?_⟩
    cases hr : parseStructTypeSpec L ts str with
    | ok s => exact absurd hr (hnot s)
    | error e => exact ⟨e, rfl⟩
    | panic =>
      exfalso
      obtain ⟨f, hf, hfm, hbad⟩ := parseStructTypeSpec_panic L ts str hr
      have := hall f hf hfm
      rcases hbad with h | h
      · omega
      · exact this.2 h
  · intro s hs fld hfld hpk
    obtain ⟨ha, -, -, -, hres⟩ := (parseStructTypeSpec_ok_iff L ts str s).1 hs
    rw [hres, walkResult_init_Fields] at hfld
    obtain ⟨f, hf, hm, he⟩ := mem_mappedFields L str.Fields fld hfld
    have hc := AllOk_mapped L ts.Name str.Fields ha f hf hm
    rw [he] at hc
    exact (memberCheck_ok_some L ts.Name f fld hc).2.2.2.2.2.2 hpk

/-- An instance of the amended C7: the example type with `ID *string` as primary
key gives a validation error. -/
theorem parseStructTypeSpec_pointer_pk_witness :
    ∃ e, parseStructTypeSpec plainLib userTypeSpec ptrUserStructType = .error e :=
  ((parseStructTypeSpec_pointer_pk plainLib userTypeSpec ptrUserStructType).1
    ptrIdMember (by decide) "*string" (by decide) (by decide) (by decide) (by decide)).2
    (by decide)

/-! ## The member walk over a concatenation -/

theorem loop_append (L : GoLib) (ms2 : List AstField) (ms1 : List AstField) :
    ∀ (res : Struct) (n : Int) (r1 : Struct),
      parseStructTypeSpec.loop L ms1 res n = .ok r1 →
      parseStructTypeSpec.loop L (ms1 ++ ms2) res n =
        parseStructTypeSpec.loop L ms2 r1 (n + ((mappedFields L ms1).length : Nat)) := by
  induction ms1 with
  | nil =>
    intro res n r1 h
    rw [loop_nil] at h
    simp only [Outcome.ok.injEq] at h
    subst h
    simp [mappedFields_nil]
  | cons f rest ih =>
    intro res n r1 h
    rw [List.cons_append, loop_cons]
    rw [loop_cons] at h
    cases hc : memberCheck L res.Typ f with
    | panic => simp [hc] at h
    | error e => simp [hc] at h
    | ok o =>
      rw [hc] at h
      cases o with
      | none =>
        simp only [] at h ⊢
        rw [ih res n r1 h, mappedFields_cons_skip L f rest ((memberCheck_ok_none L _ f).1 hc)]
      | some fld =>
        simp only [] at h ⊢
        by_cases hd : fld.IsPK = true ∧ res.PkIndex ≥ 0
        · rw [if_pos hd] at h
          split at h <;> simp at h
        · rw [if_neg hd] at h ⊢
          rw [ih _ (n + 1) r1 h,
            mappedFields_cons_mapped L f rest (memberCheck_ok_some L _ f fld hc).1]
          congr 1
          simp only [List.length_cons]
          push_cast
          ring

/-! ## C8: duplicate primary key -/

theorem pkCount_mappedFields_zero (L : GoLib) (ms : List AstField)
    (h : ∀ f ∈ ms, isMapped L f = true → (parseFieldTag (skyTag L f)).2 = false) :
    pkCount (mappedFields L ms) = 0 := by
  unfold pkCount
  rw [List.countP_eq_zero]
  intro fld hfld
  obtain ⟨f, hf, hm, he⟩ := mem_mappedFields L ms fld hfld
  have := h f hf hm
  rw [← he]
  simp [toField, this]

theorem walk_first_pk (L : GoLib) (ts : TypeSpec) (pre mid : List AstField) (a : AstField)
    (hok : AllOk L ts.Name (pre ++ a :: mid)) (hma : isMapped L a = true)
    (hpa : (parseFieldTag (skyTag L a)).2 = true)
    (hno : ∀ f ∈ pre ++ mid, isMapped L f = true → (parseFieldTag (skyTag L f)).2 = false) :
    ∃ r1, parseStructTypeSpec.loop L (pre ++ a :: mid) (initStruct ts) 0 = .ok r1 ∧
      r1.Typ = ts.Name ∧ 0 ≤ r1.PkIndex ∧
      r1.Fields.get? r1.PkIndex.toNat = some (toField L a) := by
  have hpre : pkCount (mappedFields L pre) = 0 :=
    pkCount_mappedFields_zero L pre fun f hf => hno f (List.mem_append_left mid hf)
  have hmid : pkCount (mappedFields L mid) = 0 :=
    pkCount_mappedFields_zero L mid fun f hf => hno f (List.mem_append_right pre hf)
  have hmf : mappedFields L (pre ++ a :: mid) =
      mappedFields L pre ++ toField L a :: mappedFields L mid := by
    rw [mappedFields_append, mappedFields_cons_mapped L a mid hma]
  have hpkA : (toField L a).IsPK = true := hpa
  have hcount : pkCount (mappedFields L (pre ++ a :: mid)) = 1 := by
    rw [hmf]
    unfold pkCount at hpre hmid ⊢
    rw [List.countP_append, List.countP_cons_of_pos _ _ (by simpa using hpkA), hpre, hmid]
  have hlen : (mappedFields L pre).length < (mappedFields L (pre ++ a :: mid)).length := by
    rw [hmf]
    simp
  have hget : (mappedFields L (pre ++ a :: mid)).get ⟨(mappedFields L pre).length, hlen⟩ =
      toField L a := by
    simp only [List.get_eq_getElem, hmf]
    rw [List.getElem_append_right (le_refl _)]
    simp
  have hidx : (mappedFields L (pre ++ a :: mid)).findIdx (fun f => f.IsPK) =
      (mappedFields L pre).length := by
    apply findIdx_of_countP_le_one (fun f : Field => f.IsPK) _ _ _ hlen
    · rw [hget]
      exact hpkA
    · have := hcount
      unfold pkCount at this
      omega
  refine ⟨walkResult L (pre ++ a :: mid) (initStruct ts) 0, ?_, rfl, ?_, ?_⟩
  · rw [loop_ok_iff L _ (initStruct ts) 0 _ (le_refl 0)]
    refine ⟨hok, ?_, rfl⟩
    rw [hcount]
    simp [initStruct]
  · simp only [walkResult, hcount, hidx]
    simp
  · have hP : (walkResult L (pre ++ a :: mid) (initStruct ts) 0).PkIndex =
        ((mappedFields L pre).length : Int) := by
      simp only [walkResult, hcount, hidx]
      simp
    rw [hP, walkResult_init_Fields, Int.toNat_ofNat, List.get?_eq_get hlen, hget]

set_option maxRecDepth 20000 in
/-- C8, as stated, fails: in the struct type with `ID *string` tagged
sky:"id,pk" and `Key string` tagged sky:"key,pk" both members are annotated as
pk, and the error returned is the pointer error of `ID`, whose message does
not name the field `Key`. -/
theorem duplicatePK_counterexample :
    (parseFieldTag (skyTag plainLib ptrIdMember)).2 = true ∧
    (parseFieldTag (skyTag plainLib keyPkMember)).2 = true ∧
    parseStructTypeSpec plainLib userTypeSpec ptrTwoPkStructType =
      .error (.pointerPK "User" "ID") ∧
    Err.Error plainLib (.pointerPK "User" "ID") =
      "skygen: User has pointer field ID with with \x27pk\x27 label in \x27skygen:\x27 tag, it is not allowed" ∧
    ¬ List.IsInfix "Key".data (Err.Error plainLib (.pointerPK "User" "ID")).data := by
  refine ⟨by decide, by decide, by decide, by decide, ?_⟩
  decide

/-- C8, amended. A struct type with two members annotated as pk never yields a
struct.  When the two are the first two such members and every member up to
and including the second passes the checks that look at one member only
(one exported name, a valid tag, a type that can be spelled and, for a pk,
begins with neither `*` nor `[`), `parseStructTypeSpec` returns the
duplicate-pk error, whose message names the second pk field and the first. -/
theorem parseStructTypeSpec_duplicate_pk (L : GoLib) (ts : TypeSpec) (str : StructType)
    (pre mid post : List AstField) (a b : AstField)
    (hms : str.Fields = pre ++ a :: mid ++ b :: post)
    (hma : isMapped L a = true) (hpa : (parseFieldTag (skyTag L a)).2 = true)
    (hmb : isMapped L b = true) (hpb : (parseFieldTag (skyTag L b)).2 = true) :
    (∀ s, parseStructTypeSpec L ts str ≠ .ok s) ∧
    (AllOk L ts.Name (pre ++ a :: mid ++ [b]) →
      (∀ f ∈ pre ++ mid, isMapped L f = true → (parseFieldTag (skyTag L f)).2 = false) →
      ∃ na nb, a.Names = [na] ∧ b.Names = [nb] ∧
        parseStructTypeSpec L ts str = .error (.duplicatePK ts.Name nb na) ∧
        Err.Error L (.duplicatePK ts.Name nb na) =
          "skygen: " ++ ts.Name ++ " has field " ++ nb ++
            " with with duplicate \x27pk\x27 label in \x27skygen:\x27 tag (first used by " ++ na ++
            "), it is not allowed") := by
  constructor
  · intro s hs
    obtain ⟨-, hc, -⟩ := (parseStructTypeSpec_ok_iff L ts str s).1 hs
    have hA : (toField L a).IsPK = true := hpa
    have hB : (toField L b).IsPK = true := hpb
    rw [hms, mappedFields_append, mappedFields_append, mappedFields_cons_mapped L a _ hma,
      mappedFields_cons_mapped L b _ hmb] at hc
    unfold pkCount at hc
    rw [List.countP_append, List.countP_append, List.countP_cons_of_pos _ _ (by simpa using hA),
      List.countP_cons_of_pos _ _ (by simpa using hB)] at hc
    omega
  · intro hok hno
    have hok1 : AllOk L ts.Name (pre ++ a :: mid) := by
      intro f hf
      apply hok f
      simp only [List.mem_append, List.mem_cons, List.mem_singleton] at hf ⊢
      tauto
    have hokb : memberCheck L ts.Name b = .ok (some (toField L b)) :=
      AllOk_mapped L ts.Name _ hok b (by simp) hmb
    have hoka : memberCheck L ts.Name a = .ok (some (toField L a)) :=
      AllOk_mapped L ts.Name _ hok a (by simp) hma
    obtain ⟨r1, hl, hT, hP, hget⟩ := walk_first_pk L ts pre mid a hok1 hma hpa hno
    have hNa := (memberCheck_ok_some L ts.Name a _ hoka).2.2.1
    have hNb := (memberCheck_ok_some L ts.Name b _ hokb).2.2.1
    refine ⟨(toField L a).Name, (toField L b).Name, hNa, hNb, ?_, rfl⟩
    have hsplit : str.Fields = (pre ++ a :: mid) ++ b :: post := hms
    have hB : (toField L b).IsPK = true := hpb
    rw [parseStructTypeSpec_eq, hsplit, loop_append L (b :: post) (pre ++ a :: mid) _ _ r1 hl,
      loop_cons, hT, hokb]
    simp only []
    rw [if_pos ⟨hB, hP⟩, hget]

/-- An instance of the amended C8: `ID string` and `Key string`, both tagged as
primary key, give the duplicate-pk error that names `Key` and `ID`. -/
theorem parseStructTypeSpec_duplicate_pk_witness :
    ∃ na nb, ({ Names := ["ID"], Typ := .Ident "string",
                Tag := some "\x60sky:\"id,pk\"\x60" } : AstField).Names = [na] ∧
      keyPkMember.Names = [nb] ∧
      parseStructTypeSpec plainLib userTypeSpec twoPkStructType =
        .error (.duplicatePK userTypeSpec.Name nb na) ∧
      Err.Error plainLib (.duplicatePK userTypeSpec.Name nb na) =
        "skygen: " ++ userTypeSpec.Name ++ " has field " ++ nb ++
          " with with duplicate \x27pk\x27 label in \x27skygen:\x27 tag (first used by " ++ na ++
          "), it is not allowed" :=
  (parseStructTypeSpec_duplicate_pk plainLib userTypeSpec twoPkStructType [] [] []
    { Names := ["ID"], Typ := .Ident "string", Tag := some "\x60sky:\"id,pk\"\x60" } keyPkMember
    rfl (by decide) (by decide) (by decide) (by decide)).2
    (by
      intro f hf
      simp only [List.nil_append, List.cons_append, List.mem_cons, List.mem_singleton,
        List.not_mem_nil, or_false] at hf
      rcases hf with rfl | rfl
      · exact ⟨some { Name := "ID", Typ := "string", Column := "id", IsPK := true }, by decide⟩
      · exact ⟨some { Name := "Key", Typ := "string", Column := "key", IsPK := true }, by decide⟩)
    (by simp)

/-! ## C9: duplicate column -/

set_option maxRecDepth 20000 in
/-- C9, as stated, fails: in the struct type with `ID *string` tagged
sky:"id,pk" and `Key string` tagged sky:"id" two members are mapped to the
column `id`, and the error returned is the pointer error of `ID`, whose
message does not name the field `Key`. -/
theorem duplicateColumn_counterexample :
    isMapped plainLib ptrIdMember = true ∧ isMapped plainLib keyIdMember = true ∧
    (parseFieldTag (skyTag plainLib ptrIdMember)).1 = "id" ∧
    (parseFieldTag (skyTag plainLib keyIdMember)).1 = "id" ∧
    parseStructTypeSpec plainLib userTypeSpec ptrSameColumnStructType =
      .error (.pointerPK "User" "ID") ∧
    ¬ List.IsInfix "Key".data (Err.Error plainLib (.pointerPK "User" "ID")).data := by
  refine ⟨by decide, by decide, by decide, by decide, by decide, ?_⟩
  decide

/-- C9, amended. A struct type with two members mapped to the same column
never yields a struct.  When every member passes the checks that look at one
member only and at most one mapped member is a primary key (so the member walk
completes), and the second of the two members is the first member to repeat a
column, `parseStructTypeSpec` returns the duplicate-column error, whose message
names that member, the column, and the earlier member that used it. -/
theorem parseStructTypeSpec_duplicate_column (L : GoLib) (ts : TypeSpec) (str : StructType)
    (pre mid post : List AstField) (a b : AstField)
    (hms : str.Fields = pre ++ a :: mid ++ b :: post)
    (hma : isMapped L a = true) (hmb : isMapped L b = true)
    (hcol : (parseFieldTag (skyTag L b)).1 = (parseFieldTag (skyTag L a)).1) :
    (∀ s, parseStructTypeSpec L ts str ≠ .ok s) ∧
    (AllOk L ts.Name str.Fields → pkCount (mappedFields L str.Fields) ≤ 1 →
      ((mappedFields L (pre ++ a :: mid)).map fun f => f.Column).Nodup →
      ∃ na nb, a.Names = [na] ∧ b.Names = [nb] ∧
        parseStructTypeSpec L ts str =
          .error (.duplicateColumn ts.Name nb (parseFieldTag (skyTag L b)).1 na) ∧
        Err.Error L (.duplicateColumn ts.Name nb (parseFieldTag (skyTag L b)).1 na) =
          "skygen: " ++ ts.Name ++ " has field " ++ nb ++
            " with \x27skygen:\x27 tag with duplicate column name " ++
            (parseFieldTag (skyTag L b)).1 ++ " (used by " ++ na ++ "), it is not allowed") := by
  have hmf : mappedFields L str.Fields =
      mappedFields L pre ++ toField L a :: mappedFields L mid ++
        toField L b :: mappedFields L post := by
    rw [hms, mappedFields_append, mappedFields_append, mappedFields_cons_mapped L a _ hma,
      mappedFields_cons_mapped L b _ hmb]
  constructor
  · intro s hs
    obtain ⟨-, -, -, hnd, -⟩ := (parseStructTypeSpec_ok_iff L ts str s).1 hs
    rw [hmf, List.map_append, List.nodup_append] at hnd
    have hd : List.Disjoint _ _ := hnd.2.2
    have hb : (toField L b).Column = (toField L a).Column := hcol
    have h1 : (toField L a).Column ∈
        (mappedFields L pre ++ toField L a :: mappedFields L mid).map fun f => f.Column := by
      simp
    have h2 : (toField L a).Column ∈
        (toField L b :: mappedFields L post).map fun f => f.Column := by
      simp [hb]
    exact hd h1 h2
  · intro hok hpk hnd
    have hoka := AllOk_mapped L ts.Name _ hok a (by rw [hms]; simp) hma
    have hokb := AllOk_mapped L ts.Name _ hok b (by rw [hms]; simp) hmb
    have hNa := (memberCheck_ok_some L ts.Name a _ hoka).2.2.1
    have hNb := (memberCheck_ok_some L ts.Name b _ hokb).2.2.1
    refine ⟨(toField L a).Name, (toField L b).Name, hNa, hNb, ?_, rfl⟩
    have hl : parseStructTypeSpec.loop L str.Fields (initStruct ts) 0 =
        .ok (walkResult L str.Fields (initStruct ts) 0) := by
      rw [loop_ok_iff L str.Fields (initStruct ts) 0 _ (le_refl 0)]
      exact ⟨hok, by simpa [initStruct] using hpk, rfl⟩
    have hnd2 : ((mappedFields L pre ++ toField L a :: mappedFields L mid).map
        fun f => f.Column).Nodup := by
      rw [mappedFields_append, mappedFields_cons_mapped L a _ hma] at hnd
      exact hnd
    have hdup := checkLoop_dup ts.Name (toField L a) (toField L b) (mappedFields L mid)
      (mappedFields L post) (mappedFields L pre) [] (by simp [List.lookup]) hnd2 hcol
    have hck : checkFields (walkResult L str.Fields (initStruct ts) 0) =
        some (.duplicateColumn ts.Name (toField L b).Name (toField L b).Column
          (toField L a).Name) := by
      unfold checkFields
      rw [walkResult_init_Fields, hmf]
      rw [if_neg (by simp)]
      exact hdup
    rw [parseStructTypeSpec_eq, hl]
    simp only [hck]
    rfl

/-- An instance of the amended C9: `ID string` tagged sky:"id,pk" and
`Key string` tagged sky:"id" give the duplicate-column error that names `Key`,
`id` and `ID`. -/
theorem parseStructTypeSpec_duplicate_column_witness :
    ∃ na nb, idPkMember.Names = [na] ∧ keyIdMember.Names = [nb] ∧
      parseStructTypeSpec plainLib userTypeSpec sameColumnStructType =
        .error (.duplicateColumn userTypeSpec.Name nb
          (parseFieldTag (skyTag plainLib keyIdMember)).1 na) ∧
      Err.Error plainLib (.duplicateColumn userTypeSpec.Name nb
          (parseFieldTag (skyTag plainLib keyIdMember)).1 na) =
        "skygen: " ++ userTypeSpec.Name ++ " has field " ++ nb ++
          " with \x27skygen:\x27 tag with duplicate column name " ++
          (parseFieldTag (skyTag plainLib keyIdMember)).1 ++ " (used by " ++ na ++
          "), it is not allowed" :=
  (parseStructTypeSpec_duplicate_column plainLib userTypeSpec sameColumnStructType [] [] []
    idPkMember keyIdMember rfl (by decide) (by decide) (by decide)).2
    (by
      intro f hf
      have hf2 : f = idPkMember ∨ f = keyIdMember := by
        simpa [sameColumnStructType] using hf
      rcases hf2 with rfl | rfl
      · exact ⟨some { Name := "ID", Typ := "string", Column := "id", IsPK := true }, by decide⟩
      · exact ⟨some { Name := "Key", Typ := "string", Column := "id", IsPK := false }, by decide⟩)
    (by decide) (by decide)

/-! ## File, seen from its targets -/

theorem runTargets_cons (L : GoLib) (t : Target) (rest : List Target) (res : List Struct) :
    runTargets L (t :: rest) res =
      match parseStructTypeSpec L t.ts t.str with
      | .ok s => runTargets L rest (res ++ [{ s with StoreName := t.table }])
      | .error e => .error e
      | .panic => .panic := by
  rw [runTargets]

theorem runTargets_append (L : GoLib) (ts2 : List Target) (ts1 : List Target) :
    ∀ res : List Struct,
      runTargets L (ts1 ++ ts2) res =
        match runTargets L ts1 res with
        | .ok res1 => runTargets L ts2 res1
        | .error e => .error e
        | .panic => .panic := by
  induction ts1 with
  | nil => intro res; simp [runTargets]
  | cons t rest ih =>
    intro res
    rw [List.cons_append, runTargets_cons, runTargets_cons]
    cases parseStructTypeSpec L t.ts t.str with
    | ok s => exact ih _
    | error e => rfl
    | panic => rfl

theorem File_specs_cons (L : GoLib) (gdDoc : Option (List String)) (nSpecs : Nat)
    (sp : Spec) (rest : List Spec) (res : List Struct) :
    File.specs L gdDoc nSpecs (sp :: rest) res =
      match specTarget gdDoc nSpecs sp with
      | none => File.specs L gdDoc nSpecs rest res
      | some t =>
        match parseStructTypeSpec L t.ts t.str with
        | .ok s => File.specs L gdDoc nSpecs rest (res ++ [{ s with StoreName := t.table }])
        | .error e => .error e
        | .panic => .panic := by
  cases sp with
  | other => simp [File.specs, specTarget]
  | TypeSpec ts =>
    rw [File.specs]
    unfold specTarget
    simp only []
    generalize (if ts.Doc = none ∧ nSpecs = 1 then gdDoc else ts.Doc) = d
    cases d with
    | none => rfl
    | some doc =>
      simp only []
      generalize commentRegexp.FindStringSubmatch (commentText doc).data = m
      rcases m with _ | ⟨m0, _ | ⟨table, more⟩⟩
      · rfl
      · rfl
      · simp only []
        generalize hT : ts.Typ = ty
        cases ty with
        | other => rfl
        | StructType str =>
          simp only []
          by_cases hi : str.Incomplete = true
          · simp only [hi, if_true]
          · simp only [hi, if_false, Bool.false_eq_true]
            cases parseStructTypeSpec L ts str with
            | ok s => rfl
            | error e => rfl
            | panic => rfl

theorem File_specs_eq (L : GoLib) (gdDoc : Option (List String)) (nSpecs : Nat)
    (specs : List Spec) :
    ∀ res : List Struct,
      File.specs L gdDoc nSpecs specs res =
        runTargets L (specs.filterMap (specTarget gdDoc nSpecs)) res := by
  induction specs with
  | nil => intro res; simp [File.specs, runTargets]
  | cons sp rest ih =>
    intro res
    rw [File_specs_cons, List.filterMap_cons]
    cases hs : specTarget gdDoc nSpecs sp with
    | none => exact ih _
    | some t =>
      simp only []
      rw [runTargets_cons]
      cases parseStructTypeSpec L t.ts t.str with
      | ok s => exact ih _
      | error e => rfl
      | panic => rfl

theorem File_decls_eq (L : GoLib) (decls : List Decl) :
    ∀ res : List Struct, File.decls L decls res = runTargets L (declsTargets decls) res := by
  induction decls with
  | nil => intro res; simp [File.decls, declsTargets, runTargets]
  | cons d rest ih =>
    intro res
    cases d with
    | other => simp [File.decls, declsTargets, declTargets, ih]
    | GenDecl doc specs =>
      rw [File.decls, declsTargets, runTargets_append, File_specs_eq, declTargets]
      cases runTargets L (specs.filterMap (specTarget doc specs.length)) res with
      | ok res1 => simp only [ih]
      | error e => rfl
      | panic => rfl

theorem File_eq (L : GoLib) (fileNode : AstFile) :
    File L (.ok fileNode) =
      match runTargets L (fileTargets fileNode) [] with
      | .ok res => some (res, none)
      | .error e => some ([], some e)
      | .panic => none := by
  simp only [File, File_decls_eq, fileTargets]

/-! ## C10: whole-file abort -/

theorem runTargets_fail (L : GoLib) (t : Target) (post : List Target) (e : Err)
    (hfail : parseStructTypeSpec L t.ts t.str = .error e) (pre : List Target) :
    ∀ res : List Struct,
      (∀ r, runTargets L (pre ++ t :: post) res ≠ .ok r) ∧
      ((∀ u ∈ pre, parseStructTypeSpec L u.ts u.str ≠ .panic) →
        ∃ e2, runTargets L (pre ++ t :: post) res = .error e2) ∧
      ((∀ u ∈ pre, ∃ s, parseStructTypeSpec L u.ts u.str = .ok s) →
        runTargets L (pre ++ t :: post) res = .error e) := by
  induction pre with
  | nil =>
    intro res
    rw [List.nil_append, runTargets_cons, hfail]
    exact ⟨fun r h => by simp at h, fun _ => ⟨e, rfl⟩, fun _ => rfl⟩
  | cons u pre ih =>
    intro res
    rw [List.cons_append, runTargets_cons]
    cases hu : parseStructTypeSpec L u.ts u.str with
    | ok s =>
      simp only []
      obtain ⟨h1, h2, h3⟩ := ih (res ++ [{ s with StoreName := u.table }])
      refine ⟨h1, fun hall => h2 fun v hv => hall v (List.mem_cons_of_mem u hv),
        fun hall => h3 fun v hv => hall v (List.mem_cons_of_mem u hv)⟩
    | error e1 =>
      refine ⟨fun r h => by simp at h, fun _ => ⟨e1, rfl⟩, fun hall => ?_⟩
      obtain ⟨s, hs⟩ := hall u (List.mem_cons_self u pre)
      rw [hu] at hs
      exact absurd hs (by simp)
    | panic =>
      refine ⟨fun r h => by simp at h, fun hall => ?_, fun hall => ?_⟩
      · exact absurd hu (hall u (List.mem_cons_self u pre))
      · obtain ⟨s, hs⟩ := hall u (List.mem_cons_self u pre)
        rw [hu] at hs
        exact absurd hs (by simp)

/-- C10, as stated, fails: in the file with the marked type `Tagged`, whose
mapped member has a map type, followed by the marked type `PtrUser` with
`ID *string` tagged sky:"id,pk", the second type fails field validation, and
`File` panics (in `fileGoType`, on the first type) instead of returning an
error. -/
theorem File_abort_panic_counterexample :
    ({ table := "ptr_users", ts := ptrUserTypeSpec, str := ptrUserStructType } : Target) ∈
      fileTargets panicFile ∧
    parseStructTypeSpec plainLib ptrUserTypeSpec ptrUserStructType =
      .error (.pointerPK "PtrUser" "ID") ∧
    File plainLib (.ok panicFile) = none := by
  decide

/-- C10, amended. When a marker-matched, complete struct type of the file fails
field validation, `File` never returns a result with a nil error, whatever the
other types are; it returns an error with a nil result whenever
`parseStructTypeSpec` panics on none of the marker-matched complete struct
types before it (otherwise `File` may panic), and the error is that of the
failing type when all of those before it are valid.  `File` never returns both
a non-empty result and an error. -/
theorem File_whole_file_abort (L : GoLib) (fileNode : AstFile) (pre post : List Target)
    (t : Target) (e : Err) (hT : fileTargets fileNode = pre ++ t :: post)
    (hfail : parseStructTypeSpec L t.ts t.str = .error e) :
    (∀ res, File L (.ok fileNode) ≠ some (res, none)) ∧
    ((∀ u ∈ pre, parseStructTypeSpec L u.ts u.str ≠ .panic) →
      ∃ e2, File L (.ok fileNode) = some ([], some e2)) ∧
    ((∀ u ∈ pre, ∃ s, parseStructTypeSpec L u.ts u.str = .ok s) →
      File L (.ok fileNode) = some ([], some e)) ∧
    (∀ (parsed : Except String AstFile) (res : List Struct) (err : Err),
      File L parsed = some (res, some err) → res = []) := by
  obtain ⟨h1, h2, h3⟩ := runTargets_fail L t post e hfail pre []
  rw [File_eq, hT]
  refine ⟨?_, ?_, ?_, ?_⟩
  · intro res h
    cases hr : runTargets L (pre ++ t :: post) [] with
    | ok r => exact h1 r hr
    | error e1 => simp [hr] at h
    | panic => simp [hr] at h
  · intro hall
    obtain ⟨e2, he2⟩ := h2 hall
    exact ⟨e2, by rw [he2]⟩
  · intro hall
    rw [h3 hall]
  · intro parsed res err h
    cases parsed with
    | error msg =>
      simp only [File, Option.some.injEq, Prod.mk.injEq] at h
      exact h.1.symm
    | ok f =>
      simp only [File] at h
      cases hd : File.decls L f.Decls [] with
      | ok r => simp [hd] at h
      | error e1 =>
        simp only [hd, Option.some.injEq, Prod.mk.injEq] at h
        exact h.1.symm
      | panic => simp [hd] at h

/-- An instance of the amended C10: in the file with the valid `User`, then
`PtrUser` with `ID *string` as primary key, then the valid `Account`, `File`
returns the pointer error of `PtrUser` and a nil result. -/
theorem File_whole_file_abort_witness :
    File plainLib (.ok abortFile) = some ([], some (.pointerPK "PtrUser" "ID")) :=
  (File_whole_file_abort plainLib abortFile
    [{ table := "users", ts := { userTypeSpec with Doc := some ["// sky:users"] },
       str := userStructType }]
    [{ table := "accounts",
       ts := { userTypeSpec with Doc := some ["// sky:accounts"], Name := "Account" },
       str := userStructType }]
    { table := "ptr_users", ts := ptrUserTypeSpec, str := ptrUserStructType }
    (.pointerPK "PtrUser" "ID") (by decide) (by decide)).2.2.1
    (by
      intro u hu
      rw [List.mem_singleton] at hu
      subst hu
      exact ⟨{ userStruct with StoreName := "" }, by decide⟩)

/-! ## The targets of a group -/

theorem specTarget_typeSpec (gdDoc : Option (List String)) (nSpecs : Nat) (ts : TypeSpec) :
    specTarget gdDoc nSpecs (.TypeSpec ts) =
      match applicableDoc gdDoc nSpecs ts with
      | none => none
      | some doc =>
        match docTable doc with
        | none => none
        | some table =>
          match ts.Typ with
          | .other => none
          | .StructType str => if str.Incomplete then none else some ⟨table, ts, str⟩ := by
  unfold specTarget applicableDoc docTable
  simp only []
  generalize (if ts.Doc = none ∧ nSpecs = 1 then gdDoc else ts.Doc) = d
  cases d with
  | none => rfl
  | some doc =>
    simp only []
    generalize commentRegexp.FindStringSubmatch (commentText doc).data = m
    rcases m with _ | ⟨m0, _ | ⟨table, more⟩⟩ <;> rfl

theorem specTarget_some_iff (gdDoc : Option (List String)) (nSpecs : Nat) (sp : Spec)
    (t : Target) :
    specTarget gdDoc nSpecs sp = some t ↔
      ∃ doc, sp = .TypeSpec t.ts ∧ applicableDoc gdDoc nSpecs t.ts = some doc ∧
        docTable doc = some t.table ∧ t.ts.Typ = .StructType t.str ∧
        t.str.Incomplete = false := by
  cases sp with
  | other =>
    simp [specTarget]
  | TypeSpec ts =>
    rw [specTarget_typeSpec]
    cases hd : applicableDoc gdDoc nSpecs ts with
    | none =>
      simp only [false_iff, not_exists, not_and, reduceCtorEq]
      intro doc hsp hdoc
      simp only [Spec.TypeSpec.injEq] at hsp
      rw [← hsp, hd] at hdoc
      exact absurd hdoc (by simp)
    | some doc =>
      simp only []
      cases hm : docTable doc with
      | none =>
        simp only [false_iff, not_exists, not_and, reduceCtorEq]
        intro doc2 hsp hdoc htab
        simp only [Spec.TypeSpec.injEq] at hsp
        rw [← hsp, hd] at hdoc
        simp only [Option.some.injEq] at hdoc
        rw [← hdoc, hm] at htab
        exact absurd htab (by simp)
      | some table =>
        simp only []
        cases hT : ts.Typ with
        | other =>
          simp only [false_iff, not_exists, not_and, reduceCtorEq]
          intro doc2 hsp _ _ hty
          simp only [Spec.TypeSpec.injEq] at hsp
          rw [← hsp, hT] at hty
          exact absurd hty (by simp)
        | StructType str =>
          simp only []
          constructor
          · intro h
            by_cases hi : str.Incomplete = true
            · simp [hi] at h
            · simp only [hi, if_false, Option.some.injEq, Bool.false_eq_true] at h
              subst h
              exact ⟨doc, rfl, hd, hm, hT, by simpa using hi⟩
          · rintro ⟨doc2, hsp, hdoc, htab, hty, hinc⟩
            simp only [Spec.TypeSpec.injEq] at hsp
            subst hsp
            rw [hd] at hdoc
            simp only [Option.some.injEq] at hdoc
            subst hdoc
            rw [hm] at htab
            simp only [Option.some.injEq] at htab
            rw [hT] at hty
            simp only [TypeExpr.StructType.injEq] at hty
            rw [hty, hinc]
            simp only [Bool.false_eq_true, if_false, Option.some.injEq]
            cases t
            simp_all

theorem specTarget_group_doc (d d2 : Option (List String)) (nSpecs : Nat) (sp : Spec)
    (h : nSpecs ≠ 1) : specTarget d nSpecs sp = specTarget d2 nSpecs sp := by
  cases sp with
  | other => rfl
  | TypeSpec ts =>
    rw [specTarget_typeSpec, specTarget_typeSpec]
    simp [applicableDoc, h]

theorem typeDefCount_le_length (specs : List Spec) : typeDefCount specs ≤ specs.length :=
  List.countP_le_length _

theorem parseStructTypeSpec_congr_name (L : GoLib) (ts ts2 : TypeSpec) (str : StructType)
    (h : ts.Name = ts2.Name) : parseStructTypeSpec L ts str = parseStructTypeSpec L ts2 str := by
  unfold parseStructTypeSpec
  rw [h]

theorem File_decls_targets_congr (L : GoLib) (d1 d2 : Decl) (rest : List Decl)
    (res : List Struct) (h : declTargets d1 = declTargets d2) :
    File.decls L (d1 :: rest) res = File.decls L (d2 :: rest) res := by
  rw [File_decls_eq, File_decls_eq, declsTargets, declsTargets, h]

/-! ## C11: the group fallback -/

/-- C11. Group fallback. In a declaration group with two or more type
definitions the comment of the group is never read: replacing it changes
nothing, and every target of the group has a comment of its own that matches
the marker and gives its store name.  More generally the comment of the group
is not read for definitions that have their own comment.  For a group of
exactly one definition that has no comment of its own, the comment of the group
is read as if it were the comment of the definition. -/
theorem File_group_fallback (L : GoLib) :
    (∀ (d d2 : Option (List String)) (specs : List Spec) (rest : List Decl) (res : List Struct),
      2 ≤ typeDefCount specs →
      File.decls L (.GenDecl d specs :: rest) res = File.decls L (.GenDecl d2 specs :: rest) res) ∧
    (∀ (d : Option (List String)) (specs : List Spec) (t : Target),
      2 ≤ typeDefCount specs → t ∈ declTargets (.GenDecl d specs) →
      Spec.TypeSpec t.ts ∈ specs ∧ ∃ doc, t.ts.Doc = some doc ∧ docTable doc = some t.table) ∧
    (∀ (d d2 : Option (List String)) (specs : List Spec) (rest : List Decl) (res : List Struct),
      (∀ ts, Spec.TypeSpec ts ∈ specs → ts.Doc ≠ none) →
      File.decls L (.GenDecl d specs :: rest) res = File.decls L (.GenDecl d2 specs :: rest) res) ∧
    (∀ (d : Option (List String)) (ts : TypeSpec) (rest : List Decl) (res : List Struct),
      ts.Doc = none →
      File.decls L (.GenDecl d [.TypeSpec ts] :: rest) res =
        File.decls L (.GenDecl none [.TypeSpec { ts with Doc := d }] :: rest) res) := by
  refine ⟨?_, ?_, ?_, ?_⟩
  · intro d d2 specs rest res h2
    apply File_decls_targets_congr
    have hn : specs.length ≠ 1 := by
      have := typeDefCount_le_length specs
      omega
    have hf : specTarget d specs.length = specTarget d2 specs.length :=
      funext fun sp => specTarget_group_doc d d2 specs.length sp hn
    simp only [declTargets, hf]
  · intro d specs t h2 ht
    have hn : specs.length ≠ 1 := by
      have := typeDefCount_le_length specs
      omega
    simp only [declTargets, List.mem_filterMap] at ht
    obtain ⟨sp, hsp, hst⟩ := ht
    obtain ⟨doc, hsp2, hdoc, htab, -, -⟩ := (specTarget_some_iff d specs.length sp t).1 hst
    refine ⟨hsp2 ▸ hsp, doc, ?_, htab⟩
    simpa [applicableDoc, hn] using hdoc
  · intro d d2 specs rest res hall
    apply File_decls_targets_congr
    simp only [declTargets]
    apply List.filterMap_congr
    intro sp hsp
    cases sp with
    | other => rfl
    | TypeSpec ts =>
      rw [specTarget_typeSpec, specTarget_typeSpec]
      simp [applicableDoc, hall ts hsp]
  · intro d ts rest res hdoc
    rw [File.decls, File.decls, File_specs_cons, File_specs_cons, specTarget_typeSpec,
      specTarget_typeSpec]
    have h1 : applicableDoc d [Spec.TypeSpec ts].length ts = d := by
      simp [applicableDoc, hdoc]
    have h2 : applicableDoc none [Spec.TypeSpec { ts with Doc := d }].length
        { ts with Doc := d } = d := by
      cases d <;> simp [applicableDoc]
    rw [h1, h2]
    cases d with
    | none => rfl
    | some doc =>
      simp only []
      cases docTable doc with
      | none => rfl
      | some table =>
        simp only []
        cases ts.Typ with
        | other => rfl
        | StructType str =>
          simp only []
          by_cases hi : str.Incomplete = true
          · simp only [hi, if_true]
            rfl
          · simp only [hi, if_false, Bool.false_eq_true]
            rw [parseStructTypeSpec_congr_name L
              { Doc := some doc, Name := ts.Name, Typ := TypeExpr.StructType str } ts str rfl]
            cases parseStructTypeSpec L ts str <;> rfl

/-- An instance of C11: in the group of `User` (no comment of its own) and
`Account` (comment `// sky:accounts`) under the group comment `// sky:users`,
only `Account` is extracted. -/
theorem File_group_fallback_witness :
    File plainLib (.ok groupFile) =
      some ([{ userStruct with Typ := "Account", StoreName := "accounts" }], none) ∧
    (Spec.TypeSpec { userTypeSpec with Doc := some ["// sky:accounts"], Name := "Account" } ∈
        [Spec.TypeSpec userTypeSpec,
         Spec.TypeSpec { userTypeSpec with Doc := some ["// sky:accounts"], Name := "Account" }] ∧
      ∃ doc, ({ userTypeSpec with Doc := some ["// sky:accounts"], Name := "Account" } :
          TypeSpec).Doc = some doc ∧ docTable doc = some "accounts") :=
  ⟨by decide,
    (File_group_fallback plainLib).2.1 (some ["// sky:users"])
      [Spec.TypeSpec userTypeSpec,
       Spec.TypeSpec { userTypeSpec with Doc := some ["// sky:accounts"], Name := "Account" }]
      { table := "accounts",
        ts := { userTypeSpec with Doc := some ["// sky:accounts"], Name := "Account" },
        str := userStructType }
      (by decide) (by decide)⟩

/-! ## C12: no markers -/

theorem mem_declsTargets (decls : List Decl) (t : Target) :
    t ∈ declsTargets decls ↔ ∃ d ∈ decls, t ∈ declTargets d := by
  induction decls with
  | nil => simp [declsTargets]
  | cons d rest ih => simp [declsTargets, ih]

/-- C12. No markers: when no type definition of the file has an applicable doc
comment that matches the marker, `File` returns the empty result and a nil
error, whatever the members of the types are. -/
theorem File_no_markers (L : GoLib) (fileNode : AstFile)
    (h : ∀ (d : Option (List String)) (specs : List Spec),
      Decl.GenDecl d specs ∈ fileNode.Decls → ∀ ts, Spec.TypeSpec ts ∈ specs →
      ∀ doc, applicableDoc d specs.length ts = some doc → docTable doc = none) :
    File L (.ok fileNode) = some ([], none) := by
  have hT : fileTargets fileNode = [] := by
    rw [List.eq_nil_iff_forall_not_mem]
    intro t ht
    obtain ⟨d, hd, htd⟩ := (mem_declsTargets fileNode.Decls t).1 ht
    cases d with
    | other => simp [declTargets] at htd
    | GenDecl doc specs =>
      simp only [declTargets, List.mem_filterMap] at htd
      obtain ⟨sp, hsp, hst⟩ := htd
      obtain ⟨doc2, hsp2, hdoc, htab, -, -⟩ := (specTarget_some_iff doc specs.length sp t).1 hst
      have := h doc specs hd t.ts (hsp2 ▸ hsp) doc2 hdoc
      rw [this] at htab
      exact absurd htab (by simp)
  rw [File_eq, hT]
  rfl

/-- An instance of C12: the file with the unmarked type `PtrUser`, whose
members would fail validation, gives the empty result and a nil error. -/
theorem File_no_markers_witness :
    File plainLib (.ok unmarkedFile) = some ([], none) :=
  File_no_markers plainLib unmarkedFile (by
    intro d specs hd ts hts doc hdoc
    simp only [unmarkedFile, List.mem_singleton, Decl.GenDecl.injEq] at hd
    obtain ⟨rfl, rfl⟩ := hd
    simp only [List.mem_singleton, Spec.TypeSpec.injEq] at hts
    subst hts
    simp only [applicableDoc, List.length_singleton, and_self, if_true,
      Option.some.injEq] at hdoc
    subst hdoc
    decide)

/-! ## C13: the result of File -/

theorem runTargets_ok (L : GoLib) (ts : List Target) :
    ∀ res0 res : List Struct, runTargets L ts res0 = .ok res →
      ∃ out, res = res0 ++ out ∧
        List.Forall₂ (fun t r => ∃ s, parseStructTypeSpec L t.ts t.str = .ok s ∧
          r = { s with StoreName := t.table }) ts out := by
  induction ts with
  | nil =>
    intro res0 res h
    simp only [runTargets, Outcome.ok.injEq] at h
    exact ⟨[], by simp [h], List.Forall₂.nil⟩
  | cons t rest ih =>
    intro res0 res h
    rw [runTargets_cons] at h
    cases hp : parseStructTypeSpec L t.ts t.str with
    | panic => simp [hp] at h
    | error e => simp [hp] at h
    | ok s =>
      rw [hp] at h
      obtain ⟨out, hres, hall⟩ := ih _ res h
      refine ⟨{ s with StoreName := t.table } :: out, ?_, List.Forall₂.cons ⟨s, hp, rfl⟩ hall⟩
      rw [hres]
      simp

theorem mem_fileTargets_iff (fileNode : AstFile) (t : Target) :
    t ∈ fileTargets fileNode ↔
      ∃ (d : Option (List String)) (specs : List Spec) (doc : List String),
        Decl.GenDecl d specs ∈ fileNode.Decls ∧ Spec.TypeSpec t.ts ∈ specs ∧
        applicableDoc d specs.length t.ts = some doc ∧ docTable doc = some t.table ∧
        t.ts.Typ = .StructType t.str ∧ t.str.Incomplete = false := by
  unfold fileTargets
  rw [mem_declsTargets]
  constructor
  · rintro ⟨d, hd, htd⟩
    cases d with
    | other => simp [declTargets] at htd
    | GenDecl gdoc specs =>
      simp only [declTargets, List.mem_filterMap] at htd
      obtain ⟨sp, hsp, hst⟩ := htd
      obtain ⟨doc, hsp2, hdoc, htab, hty, hinc⟩ :=
        (specTarget_some_iff gdoc specs.length sp t).1 hst
      exact ⟨gdoc, specs, doc, hd, hsp2 ▸ hsp, hdoc, htab, hty, hinc⟩
  · rintro ⟨d, specs, doc, hd, hsp, hdoc, htab, hty, hinc⟩
    refine ⟨.GenDecl d specs, hd, ?_⟩
    simp only [declTargets, List.mem_filterMap]
    exact ⟨.TypeSpec t.ts, hsp,
      (specTarget_some_iff d specs.length _ t).2 ⟨doc, rfl, hdoc, htab, hty, hinc⟩⟩

/-- C13. Result order and content: when `File` returns a nil error, its result
lists, in the order of the file, one struct for each target, a target being a
type definition whose applicable doc comment matches the marker, whose type is
a struct type and whose field list is complete; the struct of a target is the
struct `parseStructTypeSpec` returns for it with `StoreName` set to the store
name of the marker and the other fields unchanged.  The targets of the file
are the concatenation, declaration by declaration, of the targets of the
entries of each group in order, and nothing else. -/
theorem File_result (L : GoLib) (fileNode : AstFile) (res : List Struct)
    (h : File L (.ok fileNode) = some (res, none)) :
    List.Forall₂ (fun t r => ∃ s, parseStructTypeSpec L t.ts t.str = .ok s ∧
        r.Typ = s.Typ ∧ r.StoreName = t.table ∧ r.Fields = s.Fields ∧ r.PkIndex = s.PkIndex)
      (fileTargets fileNode) res ∧
    (∀ t, t ∈ fileTargets fileNode ↔
      ∃ (d : Option (List String)) (specs : List Spec) (doc : List String),
        Decl.GenDecl d specs ∈ fileNode.Decls ∧ Spec.TypeSpec t.ts ∈ specs ∧
        applicableDoc d specs.length t.ts = some doc ∧ docTable doc = some t.table ∧
        t.ts.Typ = .StructType t.str ∧ t.str.Incomplete = false) ∧
    (∀ (decls : List Decl), declsTargets (.other :: decls) = declsTargets decls) ∧
    (∀ (d : Option (List String)) (specs : List Spec) (decls : List Decl),
      declsTargets (.GenDecl d specs :: decls) =
        specs.filterMap (specTarget d specs.length) ++ declsTargets decls) := by
  refine ⟨?_, mem_fileTargets_iff fileNode, fun _ => rfl, fun _ _ _ => rfl⟩
  rw [File_eq] at h
  cases hr : runTargets L (fileTargets fileNode) [] with
  | panic => simp [hr] at h
  | error e => simp [hr] at h
  | ok r =>
    simp only [hr, Option.some.injEq, Prod.mk.injEq, and_true] at h
    subst h
    obtain ⟨out, hres, hall⟩ := runTargets_ok L (fileTargets fileNode) [] r hr
    simp only [List.nil_append] at hres
    subst hres
    refine hall.imp ?_
    rintro t x ⟨s, hs, rfl⟩
    exact ⟨s, hs, rfl, rfl, rfl, rfl⟩

/-- An instance of C13: the example file gives the example struct for its one
target. -/
theorem File_result_witness :
    File plainLib (.ok userFile) = some ([userStruct], none) ∧
    List.Forall₂ (fun t r => ∃ s, parseStructTypeSpec plainLib t.ts t.str = .ok s ∧
        r.Typ = s.Typ ∧ r.StoreName = t.table ∧ r.Fields = s.Fields ∧ r.PkIndex = s.PkIndex)
      (fileTargets userFile) [userStruct] :=
  ⟨by decide, (File_result plainLib userFile [userStruct] (by decide)).1⟩

/-! ## C14: marker matching -/

theorem find_cons (c : Char) (cs : List Char) :
    commentRegexp.FindStringSubmatch (c :: cs) =
      if "sky:".data.isPrefixOf (c :: cs) ∧
          ((c :: cs).drop 4).takeWhile isWordChar ≠ [] then
        [String.mk ("sky:".data ++ ((c :: cs).drop 4).takeWhile isWordChar),
         String.mk (((c :: cs).drop 4).takeWhile isWordChar)]
      else commentRegexp.FindStringSubmatch cs := by
  rw [commentRegexp.FindStringSubmatch]

theorem sky_data : "sky:".data = ['s', 'k', 'y', ':'] := rfl

theorem dropWhile_head_false {α : Type} (p : α → Bool) (l : List α) (a : α) (t : List α)
    (h : l.dropWhile p = a :: t) : p a = false := by
  induction l with
  | nil => simp at h
  | cons b l ih =>
    rw [List.dropWhile_cons] at h
    split at h
    · exact ih h
    · rename_i hb
      simp only [List.cons.injEq] at h
      rw [← h.1]
      simpa using hb

theorem find_at_start (t : List Char) (c : Char) (post : List Char) (hc : isWordChar c = true)
    (ht : t = "sky:".data ++ c :: post) :
    ∃ c0 cs, t = c0 :: cs ∧ ("sky:".data.isPrefixOf (c0 :: cs) ∧
      ((c0 :: cs).drop 4).takeWhile isWordChar ≠ []) := by
  refine ⟨'s', 'k' :: 'y' :: ':' :: c :: post, by rw [ht, sky_data]; rfl, ?_, ?_⟩
  · rw [sky_data]
    simp [List.isPrefixOf]
  · have : List.drop 4 ('s' :: 'k' :: 'y' :: ':' :: c :: post) = c :: post := rfl
    rw [this, List.takeWhile_cons, hc]
    simp

theorem find_ne_nil_of_occurrence (pre : List Char) :
    ∀ (c : Char) (post : List Char), isWordChar c = true →
      commentRegexp.FindStringSubmatch (pre ++ "sky:".data ++ c :: post) ≠ [] := by
  induction pre with
  | nil =>
    intro c post hc
    obtain ⟨c0, cs, he, hcond⟩ := find_at_start _ c post hc rfl
    rw [List.nil_append, he, find_cons, if_pos hcond]
    simp
  | cons a pre ih =>
    intro c post hc
    rw [List.cons_append, List.cons_append, find_cons]
    split
    · simp
    · have := ih c post hc
      simpa using this

theorem find_decompose (s : List Char) :
    ∀ r, commentRegexp.FindStringSubmatch s = r → r ≠ [] →
      ∃ pre run post, s = pre ++ "sky:".data ++ run ++ post ∧ run ≠ [] ∧
        (∀ c ∈ run, isWordChar c = true) ∧
        (∀ c post2, post = c :: post2 → isWordChar c = false) ∧
        r = [String.mk ("sky:".data ++ run), String.mk run] ∧
        (∀ pre2 c2 post2, s = pre2 ++ "sky:".data ++ c2 :: post2 → isWordChar c2 = true →
          pre.length ≤ pre2.length) := by
  induction s with
  | nil =>
    intro r h hne
    rw [commentRegexp.FindStringSubmatch] at h
    exact absurd h.symm hne
  | cons c cs ih =>
    intro r h hne
    rw [find_cons] at h
    by_cases hcond : "sky:".data.isPrefixOf (c :: cs) ∧
        ((c :: cs).drop 4).takeWhile isWordChar ≠ []
    · rw [if_pos hcond] at h
      obtain ⟨t, ht⟩ := List.isPrefixOf_iff_prefix.1 hcond.1
      have hdrop : (c :: cs).drop 4 = t := by
        rw [← ht, sky_data]
        rfl
      refine ⟨[], ((c :: cs).drop 4).takeWhile isWordChar,
        ((c :: cs).drop 4).dropWhile isWordChar, ?_, hcond.2, ?_, ?_, h.symm, ?_⟩
      · rw [List.nil_append, List.append_assoc, List.takeWhile_append_dropWhile, hdrop, ht]
      · intro x hx
        exact (List.mem_takeWhile_imp hx)
      · intro x post2 hp
        exact dropWhile_head_false isWordChar _ x post2 hp
      · intro pre2 c2 post2 _ _
        simp
    · rw [if_neg hcond] at h
      obtain ⟨pre, run, post, hs, hrun, hword, hpost, hr, hleft⟩ := ih r h hne
      refine ⟨c :: pre, run, post, by rw [hs]; simp, hrun, hword, hpost, hr, ?_⟩
      intro pre2 c2 post2 hs2 hc2
      cases pre2 with
      | nil =>
        exfalso
        obtain ⟨c0, cs0, he, hcond0⟩ := find_at_start _ c2 post2 hc2 rfl
        rw [List.nil_append] at hs2
        rw [← hs2] at he
        simp only [List.cons.injEq] at he
        rw [← he.1, ← he.2] at hcond0
        exact hcond hcond0
      | cons a pre2 =>
        simp only [List.cons_append, List.cons.injEq] at hs2
        have := hleft pre2 c2 post2 hs2.2 hc2
        simp only [List.length_cons]
        omega

theorem docTable_some (doc : List String) (table : String) (h : docTable doc = some table) :
    ∃ pre post, (commentText doc).data = pre ++ "sky:".data ++ table.data ++ post ∧
      table ≠ "" ∧ (∀ c ∈ table.data, isWordChar c = true) ∧
      (∀ c post2, post = c :: post2 → isWordChar c = false) ∧
      (∀ pre2 c2 post2, (commentText doc).data = pre2 ++ "sky:".data ++ c2 :: post2 →
        isWordChar c2 = true → pre.length ≤ pre2.length) := by
  unfold docTable at h
  have hne : commentRegexp.FindStringSubmatch (commentText doc).data ≠ [] := by
    intro e
    rw [e] at h
    simp at h
  obtain ⟨pre, run, post, hs, hrun, hword, hpost, hr, hleft⟩ :=
    find_decompose (commentText doc).data _ rfl hne
  rw [hr] at h
  simp only [Option.some.injEq] at h
  subst h
  refine ⟨pre, post, hs, ?_, hword, hpost, hleft⟩
  intro e
  apply hrun
  have := congrArg String.data e
  simpa using this

theorem forall₂_mem_right {α β : Type} (R : α → β → Prop) (l1 : List α) (l2 : List β)
    (h : List.Forall₂ R l1 l2) : ∀ b ∈ l2, ∃ a ∈ l1, R a b := by
  induction h with
  | nil => intro b hb; simp at hb
  | cons hab _ ih =>
    intro b hb
    rcases List.mem_cons.1 hb with rfl | hb
    · exact ⟨_, List.mem_cons_self _ _, hab⟩
    · obtain ⟨a, ha, hR⟩ := ih b hb
      exact ⟨a, List.mem_cons_of_mem _ ha, hR⟩

theorem File_ok_mem (L : GoLib) (fileNode : AstFile) (res : List Struct)
    (h : File L (.ok fileNode) = some (res, none)) :
    ∀ r ∈ res, ∃ t ∈ fileTargets fileNode, ∃ s, parseStructTypeSpec L t.ts t.str = .ok s ∧
      r = { s with StoreName := t.table } := by
  rw [File_eq] at h
  cases hr : runTargets L (fileTargets fileNode) [] with
  | panic => simp [hr] at h
  | error e => simp [hr] at h
  | ok r0 =>
    simp only [hr, Option.some.injEq, Prod.mk.injEq, and_true] at h
    subst h
    obtain ⟨out, hres, hall⟩ := runTargets_ok L (fileTargets fileNode) [] r0 hr
    simp only [List.nil_append] at hres
    subst hres
    exact forall₂_mem_right _ _ _ hall

/-- C14. Marker matching.  The text of a doc comment is its lines joined by
single spaces.  A doc comment matches exactly when that text contains `sky:`
followed at once by a character of `[0-9A-Za-z_]`; the store name is then the
longest run of such characters after the leftmost such occurrence.  So every
store name `File` returns is non-empty and made of such characters only. -/
theorem marker_matching :
    (∀ (a b : String) (rest : List String), commentText [] = "" ∧ commentText [a] = a ∧
      commentText (a :: b :: rest) = a ++ " " ++ commentText (b :: rest)) ∧
    (∀ doc : List String, docTable doc ≠ none ↔
      ∃ pre c post, (commentText doc).data = pre ++ "sky:".data ++ c :: post ∧
        isWordChar c = true) ∧
    (∀ (doc : List String) (table : String), docTable doc = some table →
      ∃ pre post, (commentText doc).data = pre ++ "sky:".data ++ table.data ++ post ∧
        table ≠ "" ∧ (∀ c ∈ table.data, isWordChar c = true) ∧
        (∀ c post2, post = c :: post2 → isWordChar c = false) ∧
        (∀ pre2 c2 post2, (commentText doc).data = pre2 ++ "sky:".data ++ c2 :: post2 →
          isWordChar c2 = true → pre.length ≤ pre2.length)) ∧
    (∀ (L : GoLib) (fileNode : AstFile) (res : List Struct),
      File L (.ok fileNode) = some (res, none) →
      ∀ r ∈ res, r.StoreName ≠ "" ∧ ∀ c ∈ r.StoreName.data, isWordChar c = true) := by
  refine ⟨fun a b rest => ⟨rfl, rfl, rfl⟩, fun doc => ⟨fun h => ?_, fun h => ?_⟩,
    docTable_some, fun L fileNode res h r hr => ?_⟩
  · cases ht : docTable doc with
    | none => exact absurd ht h
    | some table =>
      obtain ⟨pre, post, hs, hne, hword, -, -⟩ := docTable_some doc table ht
      cases hd : table.data with
      | nil =>
        exfalso
        apply hne
        cases table
        simp_all
      | cons c run =>
        refine ⟨pre, c, run ++ post, ?_, hword c (by rw [hd]; simp)⟩
        rw [hs, hd]
        simp
  · obtain ⟨pre, c, post, hs, hc⟩ := h
    have hne := find_ne_nil_of_occurrence pre c post hc
    rw [← hs] at hne
    obtain ⟨pre1, run, post1, -, -, -, -, hr, -⟩ :=
      find_decompose (commentText doc).data _ rfl hne
    unfold docTable
    rw [hr]
    simp
  · obtain ⟨t, ht, s, -, rfl⟩ := File_ok_mem L fileNode res h r hr
    obtain ⟨d, specs, doc, -, -, -, htab, -, -⟩ := (mem_fileTargets_iff fileNode t).1 ht
    obtain ⟨pre, post, -, hne, hword, -, -⟩ := docTable_some doc t.table htab
    exact ⟨hne, hword⟩

/-- An instance of C14: the comment `// sky:users` gives the store name `users`. -/
theorem marker_matching_witness :
    docTable ["// sky:users"] = some "users" ∧
    ∃ pre post, (commentText ["// sky:users"]).data = pre ++ "sky:".data ++ "users".data ++ post ∧
      "users" ≠ "" ∧ (∀ c ∈ "users".data, isWordChar c = true) ∧
      (∀ c post2, post = c :: post2 → isWordChar c = false) ∧
      (∀ pre2 c2 post2,
        (commentText ["// sky:users"]).data = pre2 ++ "sky:".data ++ c2 :: post2 →
        isWordChar c2 = true → pre.length ≤ pre2.length) :=
  ⟨by decide, marker_matching.2.2.1 ["// sky:users"] "users" (by decide)⟩

/-! ## C15: byte aliasing -/

/-- C15. Byte aliasing: a bare identifier spells `uint8` when it is `byte` and
itself otherwise; a pointer spells `*` before the spelling of its target and a
sequence spells its length between brackets before the spelling of its
element, a literal length as written, so `*byte` spells `*uint8` and
`[16]byte` spells `[16]uint8`. -/
theorem fileGoType_byte :
    (∀ s : String, fileGoType (.Ident s) = some (if s = "byte" then "uint8" else s)) ∧
    (∀ x : Expr, fileGoType (.StarExpr x) = (fileGoType x).map fun t => "*" ++ t) ∧
    (∀ (n : String) (x : Expr), fileGoType (.ArrayType (.BasicLit n) x) =
      (fileGoType x).map fun t => "[" ++ n ++ "]" ++ t) ∧
    (∀ x : Expr, fileGoType (.ArrayType .nil x) = (fileGoType x).map fun t => "[]" ++ t) ∧
    fileGoType (.StarExpr (.Ident "byte")) = some "*uint8" ∧
    fileGoType (.ArrayType (.BasicLit "16") (.Ident "byte")) = some "[16]uint8" ∧
    fileGoType (.ArrayType .nil (.StarExpr (.Ident "byte"))) = some "[]*uint8" := by
  refine ⟨fun s => ?_, fun x => rfl, fun n x => ?_, fun x => ?_, by decide, by decide, by decide⟩
  · by_cases h : s = "byte" <;> simp [fileGoType, h]
  · cases h : fileGoType x <;> simp [fileGoType, h]
  · cases h : fileGoType x <;> simp [fileGoType, h]

/-! ## C16: the speller is total on the listed shapes -/

theorem fileGoType_none_iff (e : Expr) : fileGoType e = none ↔ hasOther e = true := by
  induction e with
  | StarExpr X ih => simp [fileGoType, hasOther, ih]
  | SelectorExpr X Sel ih => simp [fileGoType, hasOther, ih]
  | Ident Name => by_cases h : Name = "byte" <;> simp [fileGoType, hasOther, h]
  | ArrayType Len Elt ih1 ih2 =>
    simp only [fileGoType, hasOther, Bool.or_eq_true, ← ih1, ← ih2]
    cases fileGoType Len <;> cases fileGoType Elt <;> simp
  | BasicLit Value => simp [fileGoType, hasOther]
  | nil => simp [fileGoType, hasOther]
  | other => simp [fileGoType, hasOther]

theorem isLength_no_other (e : Expr) (h : isLength e = true) : hasOther e = false := by
  cases e <;> simp_all [isLength, hasOther]

theorem isFieldType_no_other (e : Expr) : isFieldType e = true → hasOther e = false := by
  induction e with
  | StarExpr X ih => simpa [isFieldType, hasOther] using ih
  | SelectorExpr X Sel ih =>
    intro h
    cases X <;> simp_all [isFieldType, hasOther]
  | Ident Name => simp [hasOther]
  | ArrayType Len Elt ih1 ih2 =>
    intro h
    simp only [isFieldType, Bool.and_eq_true] at h
    simp [hasOther, isLength_no_other Len h.1, ih2 h.2]
  | BasicLit Value => simp [hasOther]
  | nil => simp [isFieldType]
  | other => simp [isFieldType]

/-- C16. Speller totality: on every type expression built from pointer-to-T,
qualified name, bare identifier, sequence of T (with a literal, identifier or
absent length) and literal, `fileGoType` returns a string; it reaches the
panic exactly when the expression contains a node of another shape. -/
theorem fileGoType_total :
    (∀ e : Expr, isFieldType e = true → ∃ s, fileGoType e = some s) ∧
    (∀ e : Expr, fileGoType e = none ↔ hasOther e = true) := by
  refine ⟨fun e h => ?_, fileGoType_none_iff⟩
  have hno := isFieldType_no_other e h
  cases hf : fileGoType e with
  | some s => exact ⟨s, rfl⟩
  | none =>
    rw [(fileGoType_none_iff e).1 hf] at hno
    exact absurd hno (by simp)

/-- An instance of C16: `[]*pkg.Name` is spelled, and a sequence of a type of
another shape is not. -/
theorem fileGoType_total_witness :
    (∃ s, fileGoType (.ArrayType .nil (.StarExpr (.SelectorExpr (.Ident "pkg") "Name"))) =
      some s) ∧
    (fileGoType (.ArrayType .nil .other) = none ↔ hasOther (.ArrayType .nil .other) = true) :=
  ⟨fileGoType_total.1 _ (by decide), fileGoType_total.2 _⟩

/-! ## C17: PKField -/

theorem ok_pk_facts (L : GoLib) (ts : TypeSpec) (str : StructType) (s : Struct)
    (h : parseStructTypeSpec L ts str = .ok s) :
    (s.PkIndex = -1 ∧ ∀ f ∈ s.Fields, f.IsPK = false) ∨
    (∃ (i : Nat) (hi : i < s.Fields.length), s.PkIndex = (i : Int) ∧
      (s.Fields.get ⟨i, hi⟩).IsPK = true ∧
      ∀ (j : Nat) (hj : j < s.Fields.length), (s.Fields.get ⟨j, hj⟩).IsPK = true → j = i) := by
  obtain ⟨-, hc, -, -, hs⟩ := (parseStructTypeSpec_ok_iff L ts str s).1 h
  have hF : s.Fields = mappedFields L str.Fields := by rw [hs, walkResult_init_Fields]
  have hP : s.PkIndex = if pkCount s.Fields = 0 then -1
      else ((s.Fields.findIdx (fun f => f.IsPK) : Nat) : Int) := by
    rw [hF, hs]
    simp [walkResult, initStruct]
  have hc2 : s.Fields.countP (fun f => f.IsPK) ≤ 1 := by
    rw [hF]
    exact hc
  have hidx := findIdx_of_countP_le_one (fun f : Field => f.IsPK) s.Fields hc2
  by_cases h0 : pkCount s.Fields = 0
  · left
    refine ⟨by rw [hP, if_pos h0], fun f hf => ?_⟩
    unfold pkCount at h0
    have := List.countP_eq_zero.1 h0 f hf
    simpa using this
  · right
    have hex : ∃ f ∈ s.Fields, f.IsPK = true := by
      by_contra hne
      apply h0
      unfold pkCount
      rw [List.countP_eq_zero]
      intro f hf hp
      exact hne ⟨f, hf, hp⟩
    obtain ⟨f, hf, hp⟩ := hex
    obtain ⟨⟨i, hi⟩, hget⟩ := List.mem_iff_get.1 hf
    have hp2 : (s.Fields.get ⟨i, hi⟩).IsPK = true := by rw [hget]; exact hp
    refine ⟨i, hi, ?_, hp2, fun j hj hpj => ?_⟩
    · rw [hP, if_neg h0, hidx i hi hp2]
    · rw [← hidx i hi hp2, ← hidx j hj hpj]

theorem PKField_of_pk_facts (s : Struct)
    (h : (s.PkIndex = -1 ∧ ∀ f ∈ s.Fields, f.IsPK = false) ∨
      (∃ (i : Nat) (hi : i < s.Fields.length), s.PkIndex = (i : Int) ∧
        (s.Fields.get ⟨i, hi⟩).IsPK = true ∧
        ∀ (j : Nat) (hj : j < s.Fields.length), (s.Fields.get ⟨j, hj⟩).IsPK = true → j = i)) :
    (s.PKField = .panic ↔ s.HasPK = false) ∧ (s.HasPK = false ↔ s.PkIndex < 0) ∧
    (s.HasPK = true → 0 ≤ s.PkIndex ∧ s.PkIndex < (s.Fields.length : Int) ∧
      ∃ f, s.PKField = .ok f ∧ f.IsPK = true ∧ s.Fields.get? s.PkIndex.toNat = some f ∧
        ∀ (j : Nat) (hj : j < s.Fields.length),
          (s.Fields.get ⟨j, hj⟩).IsPK = true → (j : Int) = s.PkIndex) := by
  have hHas : s.HasPK = false ↔ s.PkIndex < 0 := by
    simp [Struct.HasPK]
  rcases h with ⟨hm, hall⟩ | ⟨i, hi, hP, hpk, huniq⟩
  · have hf : s.HasPK = false := hHas.2 (by omega)
    refine ⟨?_, hHas, ?_⟩
    · simp [Struct.PKField, hf]
    · intro ht
      rw [hf] at ht
      exact absurd ht (by simp)
  · have ht : s.HasPK = true := by
      simp [Struct.HasPK, hP]
    have hget : s.Fields.get? s.PkIndex.toNat = some (s.Fields.get ⟨i, hi⟩) := by
      rw [hP, Int.toNat_ofNat, List.get?_eq_get hi]
    have hPK : s.PKField = .ok (s.Fields.get ⟨i, hi⟩) := by
      unfold Struct.PKField
      rw [ht, hget]
      simp
    refine ⟨?_, hHas, ?_⟩
    · rw [hPK, ht]
      simp
    · intro _
      refine ⟨by omega, by omega, s.Fields.get ⟨i, hi⟩, hPK, hpk, hget, fun j hj hj2 => ?_⟩
      rw [hP, huniq j hj hj2]

/-- C17. `PKField` on a struct returned by `parseStructTypeSpec` or listed in the
result of `File`: it panics exactly when `HasPK` is false, that is when
`PkIndex` is negative; otherwise `PkIndex` is within range and `PKField`
returns the field at that index, which has `IsPK` and is the only field of
the struct that has. -/
theorem PKField_spec (L : GoLib) (s : Struct)
    (h : (∃ ts str, parseStructTypeSpec L ts str = .ok s) ∨
      (∃ fileNode res, File L (.ok fileNode) = some (res, none) ∧ s ∈ res)) :
    (s.PKField = .panic ↔ s.HasPK = false) ∧ (s.HasPK = false ↔ s.PkIndex < 0) ∧
    (s.HasPK = true → 0 ≤ s.PkIndex ∧ s.PkIndex < (s.Fields.length : Int) ∧
      ∃ f, s.PKField = .ok f ∧ f.IsPK = true ∧ s.Fields.get? s.PkIndex.toNat = some f ∧
        ∀ (j : Nat) (hj : j < s.Fields.length),
          (s.Fields.get ⟨j, hj⟩).IsPK = true → (j : Int) = s.PkIndex) := by
  apply PKField_of_pk_facts
  rcases h with ⟨ts, str, hs⟩ | ⟨fileNode, res, hf, hmem⟩
  · exact ok_pk_facts L ts str s hs
  · obtain ⟨t, -, s0, hs0, rfl⟩ := File_ok_mem L fileNode res hf s hmem
    exact ok_pk_facts L t.ts t.str s0 hs0

/-- An instance of C17: on the example struct `PKField` returns the field `ID`. -/
theorem PKField_spec_witness :
    (userStruct.PKField = .panic ↔ userStruct.HasPK = false) ∧
    (userStruct.HasPK = false ↔ userStruct.PkIndex < 0) ∧
    (userStruct.HasPK = true → 0 ≤ userStruct.PkIndex ∧
      userStruct.PkIndex < (userStruct.Fields.length : Int) ∧
      ∃ f, userStruct.PKField = .ok f ∧ f.IsPK = true ∧
        userStruct.Fields.get? userStruct.PkIndex.toNat = some f ∧
        ∀ (j : Nat) (hj : j < userStruct.Fields.length),
          (userStruct.Fields.get ⟨j, hj⟩).IsPK = true → (j : Int) = userStruct.PkIndex) :=
  PKField_spec plainLib userStruct
    (Or.inr ⟨userFile, [userStruct], by decide, by decide⟩)

/-! ## The member walk over a concatenation that stops early -/

theorem loop_append_not_ok (L : GoLib) (ms2 : List AstField) (ms1 : List AstField) :
    ∀ (res : Struct) (n : Int),
      (∀ e, parseStructTypeSpec.loop L ms1 res n = .error e →
        parseStructTypeSpec.loop L (ms1 ++ ms2) res n = .error e) ∧
      (parseStructTypeSpec.loop L ms1 res n = .panic →
        parseStructTypeSpec.loop L (ms1 ++ ms2) res n = .panic) := by
  induction ms1 with
  | nil =>
    intro res n
    simp [loop_nil]
  | cons f rest ih =>
    intro res n
    rw [List.cons_append, loop_cons, loop_cons]
    cases hc : memberCheck L res.Typ f with
    | panic => simp
    | error e => simp
    | ok o =>
      cases o with
      | none => exact ih res n
      | some fld =>
        simp only []
        by_cases hd : fld.IsPK = true ∧ res.PkIndex ≥ 0
        · simp only [if_pos hd]
          exact ⟨fun e h => h, fun h => h⟩
        · simp only [if_neg hd]
          exact ih _ _

theorem memberCheck_nonExported (L : GoLib) (typ : String) (m : AstField) (name : String)
    (hm : isMapped L m = true) (hN : m.Names = [name]) (hE : IsExported L name = false) :
    memberCheck L typ m = .error (.nonExportedField typ name) := by
  unfold memberCheck
  have hs : ¬ (skyTag L m = "" ∨ skyTag L m = "-") := by
    unfold isMapped at hm
    simp only [decide_eq_true_eq] at hm
    exact fun h => h.elim hm.1 hm.2
  rw [if_neg hs, hN]
  simp [hE]

theorem loop_ok_Typ (L : GoLib) (ms : List AstField) (res r1 : Struct) (n : Int) (hn : 0 ≤ n)
    (h : parseStructTypeSpec.loop L ms res n = .ok r1) : r1.Typ = res.Typ := by
  obtain ⟨-, -, hr⟩ := (loop_ok_iff L ms res n r1 hn).1 h
  rw [hr]
  rfl

/-! ## C18: visibility -/

/-- C18, as stated, fails: the struct type with `Tags map[string]string` tagged
sky:"tags" followed by `id string` tagged sky:"id" contains a named, mapped
member whose name is not exported, and `parseStructTypeSpec` panics on it (in
`fileGoType`, on the map type) instead of returning an error. -/
theorem nonExported_panic_counterexample :
    lowerIdMember ∈ mapThenLower.Fields ∧ isMapped plainLib lowerIdMember = true ∧
      lowerIdMember.Names = ["id"] ∧ IsExported plainLib "id" = false ∧
      parseStructTypeSpec plainLib userTypeSpec mapThenLower = .panic ∧
      ¬ ∃ e, parseStructTypeSpec plainLib userTypeSpec mapThenLower = .error e := by
  have hp : parseStructTypeSpec plainLib userTypeSpec mapThenLower = .panic := by decide
  refine ⟨by decide, by decide, by decide, by decide, hp, ?_⟩
  rintro ⟨e, he⟩
  rw [hp] at he
  exact absurd he (by simp)

/-- C18, amended. For a struct type with a mapped member that has exactly one
name, not exported, `parseStructTypeSpec` never returns a struct; it returns an
error whenever no mapped member before that one has several names or a type
`fileGoType` cannot spell (otherwise it may panic).  Hence the name of every
field of every returned struct is exported. -/
theorem parseStructTypeSpec_visibility (L : GoLib) (ts : TypeSpec) (str : StructType) :
    (∀ (pre post : List AstField) (m : AstField) (name : String),
      str.Fields = pre ++ m :: post → isMapped L m = true → m.Names = [name] →
      IsExported L name = false →
      (∀ s, parseStructTypeSpec L ts str ≠ .ok s) ∧
      ((∀ f ∈ pre, isMapped L f = true → f.Names.length ≤ 1 ∧ fileGoType f.Typ ≠ none) →
        ∃ e, parseStructTypeSpec L ts str = .error e)) ∧
    (∀ s, parseStructTypeSpec L ts str = .ok s → ∀ fld ∈ s.Fields,
      IsExported L fld.Name = true) := by
  constructor
  · intro pre post m name hms hm hN hE
    have hmc : ∀ typ, memberCheck L typ m = .error (.nonExportedField typ name) :=
      fun typ => memberCheck_nonExported L typ m name hm hN hE
    constructor
    · intro s hs
      obtain ⟨ha, -⟩ := (parseStructTypeSpec_ok_iff L ts str s).1 hs
      obtain ⟨o, ho⟩ := ha m (by rw [hms]; simp)
      rw [hmc] at ho
      exact absurd ho (by simp)
    · intro hall
      rw [parseStructTypeSpec_eq, hms]
      cases hl : parseStructTypeSpec.loop L pre (initStruct ts) 0 with
      | ok r1 =>
        rw [loop_append L (m :: post) pre _ _ r1 hl, loop_cons, hmc]
        exact ⟨_, rfl⟩
      | error e =>
        rw [(loop_append_not_ok L (m :: post) pre (initStruct ts) 0).1 e hl]
        exact ⟨_, rfl⟩
      | panic =>
        exfalso
        obtain ⟨f, hf, hp⟩ := loop_panic L pre (initStruct ts) 0
          (by simp [initStruct]) (by simp [initStruct]) hl
        obtain ⟨hfm, hbad⟩ := memberCheck_panic L _ f hp
        have := hall f hf hfm
        rcases hbad with h | h
        · omega
        · exact this.2 h
  · intro s hs fld hfld
    obtain ⟨ha, -, -, -, hres⟩ := (parseStructTypeSpec_ok_iff L ts str s).1 hs
    rw [hres, walkResult_init_Fields] at hfld
    obtain ⟨f, hf, hm, he⟩ := mem_mappedFields L str.Fields fld hfld
    have hc := AllOk_mapped L ts.Name str.Fields ha f hf hm
    rw [he] at hc
    exact (memberCheck_ok_some L ts.Name f fld hc).2.2.2.2.2.1

/-- An instance of the amended C18: `ID string` tagged sky:"id,pk" followed by
`id string` tagged sky:"id" gives an error. -/
theorem parseStructTypeSpec_visibility_witness :
    ∃ e, parseStructTypeSpec plainLib userTypeSpec idThenLower = .error e :=
  ((parseStructTypeSpec_visibility plainLib userTypeSpec idThenLower).1
    [idPkMember] [] lowerIdMember "id" rfl (by decide) rfl (by decide)).2
    (by
      intro f hf _
      rw [List.mem_singleton] at hf
      subst hf
      decide)

/-! ## C19: unmapped members are inert -/

theorem loop_filter (L : GoLib) (ms : List AstField) :
    ∀ (res : Struct) (n : Int),
      parseStructTypeSpec.loop L ms res n =
        parseStructTypeSpec.loop L (ms.filter (isMapped L)) res n := by
  induction ms with
  | nil => intro res n; rfl
  | cons f rest ih =>
    intro res n
    by_cases hm : isMapped L f = true
    · rw [List.filter_cons_of_pos hm, loop_cons, loop_cons]
      cases hc : memberCheck L res.Typ f with
      | panic => rfl
      | error e => rfl
      | ok o =>
        cases o with
        | none => exact ih res n
        | some fld =>
          simp only []
          by_cases hd : fld.IsPK = true ∧ res.PkIndex ≥ 0
          · simp only [if_pos hd]
          · simp only [if_neg hd]
            exact ih _ _
    · have hm2 : isMapped L f = false := by simpa using hm
      rw [List.filter_cons_of_neg hm, loop_cons, (memberCheck_ok_none L res.Typ f).2 hm2]
      exact ih res n

theorem parseStructTypeSpec_filter (L : GoLib) (ts : TypeSpec) (ms : List AstField)
    (inc inc2 : Bool) :
    parseStructTypeSpec L ts { Fields := ms, Incomplete := inc } =
      parseStructTypeSpec L ts { Fields := ms.filter (isMapped L), Incomplete := inc2 } := by
  rw [parseStructTypeSpec_eq, parseStructTypeSpec_eq, loop_filter]

theorem isMapped_false_of_unmapped (L : GoLib) (u : AstField)
    (h : u.Tag = none ∨ skyTag L u = "" ∨ skyTag L u = "-") : isMapped L u = false := by
  have : skyTag L u = "" ∨ skyTag L u = "-" := by
    rcases h with h | h | h
    · left
      simp [skyTag, h]
    · exact Or.inl h
    · exact Or.inr h
  unfold isMapped
  rcases this with h | h <;> simp [h]

/-- C19. Unmapped members are inert: two member lists with the same mapped
members in the same order give the same outcome of `parseStructTypeSpec`
(the same struct, the same error, or the same panic); so inserting or
deleting members that have no tag, an empty sky value or the sky value `-`
changes nothing, whatever their names, name counts, visibility or types. -/
theorem parseStructTypeSpec_unmapped_inert (L : GoLib) (ts : TypeSpec) :
    (∀ (ms ms2 : List AstField) (inc inc2 : Bool),
      ms.filter (isMapped L) = ms2.filter (isMapped L) →
      parseStructTypeSpec L ts { Fields := ms, Incomplete := inc } =
        parseStructTypeSpec L ts { Fields := ms2, Incomplete := inc2 }) ∧
    (∀ (pre us post : List AstField) (inc : Bool),
      (∀ u ∈ us, u.Tag = none ∨ skyTag L u = "" ∨ skyTag L u = "-") →
      parseStructTypeSpec L ts { Fields := pre ++ us ++ post, Incomplete := inc } =
        parseStructTypeSpec L ts { Fields := pre ++ post, Incomplete := inc }) := by
  have h1 : ∀ (ms ms2 : List AstField) (inc inc2 : Bool),
      ms.filter (isMapped L) = ms2.filter (isMapped L) →
      parseStructTypeSpec L ts { Fields := ms, Incomplete := inc } =
        parseStructTypeSpec L ts { Fields := ms2, Incomplete := inc2 } := by
    intro ms ms2 inc inc2 h
    rw [parseStructTypeSpec_filter L ts ms inc inc, parseStructTypeSpec_filter L ts ms2 inc2 inc, h]
  refine ⟨h1, fun pre us post inc hall => ?_⟩
  apply h1
  have hus : us.filter (isMapped L) = [] := by
    rw [List.filter_eq_nil_iff]
    intro u hu
    simp [isMapped_false_of_unmapped L u (hall u hu)]
  simp [List.filter_append, hus]

/-- An instance of C19: inserting an anonymous untagged member, a member with
two names tagged sky:"-" and a member without a sky key into the example type
gives the example struct again. -/
theorem parseStructTypeSpec_unmapped_inert_witness :
    parseStructTypeSpec plainLib userTypeSpec
        { Fields := [idPkMember] ++ inertMembers ++ [nameMember], Incomplete := false } =
      parseStructTypeSpec plainLib userTypeSpec
        { Fields := [idPkMember] ++ [nameMember], Incomplete := false } :=
  (parseStructTypeSpec_unmapped_inert plainLib userTypeSpec).2 [idPkMember] inertMembers
    [nameMember] false (by decide)

/-! ## C20: rendering ignores IsPK -/

theorem foldl_append_init (l : List String) :
    ∀ a b : String, l.foldl (fun x y => x ++ y) (a ++ b) = a ++ l.foldl (fun x y => x ++ y) b := by
  induction l with
  | nil => intro a b; rfl
  | cons c l ih =>
    intro a b
    simp only [List.foldl_cons]
    rw [String.append_assoc, ih]

theorem GoString_loop_eq (q : String → String) (fs : List Field) :
    ∀ res : String, Struct.GoString.loop q fs res =
      res ++ (fs.map fun f => "\t\t" ++ f.GoString q ++ ",\n").foldl (fun x y => x ++ y) "" := by
  induction fs with
  | nil =>
    intro res
    simp [Struct.GoString.loop]
  | cons f fs ih =>
    intro res
    rw [Struct.GoString.loop, ih, List.map_cons, List.foldl_cons, String.append_assoc]
    congr 1
    rw [← foldl_append_init]
    simp

theorem Field_GoString_congr (q : String → String) (f g : Field) (hN : f.Name = g.Name)
    (hT : f.Typ = g.Typ) (hC : f.Column = g.Column) : f.GoString q = g.GoString q := by
  unfold Field.GoString
  rw [hN, hT, hC]

theorem Field_GoString_triple (q : String → String) (f : Field) :
    f.GoString q = ({ f with IsPK := false } : Field).GoString q :=
  Field_GoString_congr q _ _ rfl rfl rfl

/-- C20. Rendering ignores `IsPK`: `Field.GoString` is determined by `Name`,
`Type` and `Column`; `Struct.GoString` renders the fields in order, one line
each, between the lines for `Type` and `SQLName` and the line `PKFieldIndex`;
so two structs with the same `Type`, `StoreName` and `PkIndex` whose fields
agree up to `IsPK` render to the same text. -/
theorem GoString_ignores_IsPK (q : String → String) :
    (∀ f g : Field, f.Name = g.Name → f.Typ = g.Typ → f.Column = g.Column →
      f.GoString q = g.GoString q) ∧
    (∀ s : Struct, s.GoString q =
      "gen.Struct\x7b\n" ++ ("\tType: " ++ q s.Typ ++ ",\n") ++
        ("\tSQLName: " ++ q s.StoreName ++ ",\n") ++ "\tFields: []gen.Field\x7b\n" ++
        (s.Fields.map fun f => "\t\t" ++ f.GoString q ++ ",\n").foldl (fun x y => x ++ y) "" ++
        "\t\x7d,\n" ++ ("\tPKFieldIndex: " ++ toString s.PkIndex ++ ",\n") ++ "\x7d") ∧
    (∀ s t : Struct, s.Typ = t.Typ → s.StoreName = t.StoreName → s.PkIndex = t.PkIndex →
      (s.Fields.map fun f => ({ f with IsPK := false } : Field)) =
        (t.Fields.map fun f => ({ f with IsPK := false } : Field)) →
      s.GoString q = t.GoString q) := by
  have h2 : ∀ s : Struct, s.GoString q =
      "gen.Struct\x7b\n" ++ ("\tType: " ++ q s.Typ ++ ",\n") ++
        ("\tSQLName: " ++ q s.StoreName ++ ",\n") ++ "\tFields: []gen.Field\x7b\n" ++
        (s.Fields.map fun f => "\t\t" ++ f.GoString q ++ ",\n").foldl (fun x y => x ++ y) "" ++
        "\t\x7d,\n" ++ ("\tPKFieldIndex: " ++ toString s.PkIndex ++ ",\n") ++ "\x7d" := by
    intro s
    unfold Struct.GoString
    simp only [GoString_loop_eq]
  refine ⟨Field_GoString_congr q, h2, fun s t hT hS hP hF => ?_⟩
  have hlines : (s.Fields.map fun f => "\t\t" ++ f.GoString q ++ ",\n") =
      (t.Fields.map fun f => "\t\t" ++ f.GoString q ++ ",\n") := by
    have e : ∀ fs : List Field, (fs.map fun f => "\t\t" ++ f.GoString q ++ ",\n") =
        (fs.map fun f => ({ f with IsPK := false } : Field)).map
          fun f => "\t\t" ++ f.GoString q ++ ",\n" := by
      intro fs
      rw [List.map_map]
      apply List.map_congr_left
      intro f _
      simp only [Function.comp]
      rw [Field_GoString_triple q f]
    rw [e s.Fields, e t.Fields, hF]
  rw [h2 s, h2 t, hT, hS, hP, hlines]

/-- An instance of C20: the field `ID` renders the same with and without
`IsPK`. -/
theorem GoString_ignores_IsPK_witness :
    ({ Name := "ID", Typ := "string", Column := "id", IsPK := true } : Field).GoString plainQuote =
      ({ Name := "ID", Typ := "string", Column := "id", IsPK := false } : Field).GoString
        plainQuote :=
  (GoString_ignores_IsPK plainQuote).1 _ _ rfl rfl rfl

end Skygen
